import Mathlib

/-!
Shallow embedding of the turn engine of StoneFall (Ludum Dare 45, src/main.rs).

The embedding covers the data model (tiles, entities, traps), the occupancy
queries, the player move resolver, the monster AI and combat resolver, the trap
resolution engine, the lifecycle filtering, and the top-level state machine of
Game::update.  Rendering, asset loading and input polling are out of scope;
randomness (thread_rng) is passed in as explicit data.
-/

namespace StoneFall

/-- Grid position.  The source stores positions in quicksilver f32 Vectors, but
every gameplay value is integral (unit steps, integer clamps), so positions are
modelled as pairs of integers. -/
structure Pos where
  x : Int
  y : Int
deriving DecidableEq

def Pos.add (p q : Pos) : Pos := ⟨p.x + q.x, p.y + q.y⟩

/-- A map tile.  The glyph and color fields of the source are cosmetic and
omitted. -/
structure Tile where
  pos : Pos
  blocks : Bool
deriving DecidableEq

inductive Status where
  | berserk
deriving DecidableEq

inductive Arrow where
  | left
  | right
  | up
  | down
deriving DecidableEq

inductive Trap where
  | berserk
  | kill
  | bump
  | teleport
  | countDown (n : Nat)
  | arrow (dir : Arrow)
  | nextLevel
  | win
deriving DecidableEq

inductive MonsterType where
  | gol
  | rook
deriving DecidableEq

structure Monster where
  hp : Int
  max_hp : Int
  status : Option Status
  typ : MonsterType
deriving DecidableEq

structure Player where
  hp : Int
  max_hp : Int
  status : Option Status
deriving DecidableEq

inductive EntityType where
  | trap (t : Trap)
  | monster (m : Monster)
  | player (p : Player)
deriving DecidableEq

def EntityType.is_monster : EntityType → Bool
  | .monster _ => true
  | _ => false

def EntityType.is_player : EntityType → Bool
  | .player _ => true
  | _ => false

def EntityType.is_rook : EntityType → Bool
  | .monster m => m.typ = MonsterType.rook
  | _ => false

def EntityType.is_trap : EntityType → Bool
  | .trap _ => true
  | _ => false

/-- EntityType::lose_hp.  The trap arm panics in the source; every call site is
guarded so that a trap never reaches it (attack defenders are matched on
Player/Monster first, and the trap scan only visits players and monsters), so
the trap arm is modelled as the identity. -/
def EntityType.lose_hp (amount : Int) : EntityType → EntityType
  | .player p => .player { p with hp := p.hp - amount }
  | .monster m => .monster { m with hp := m.hp - amount }
  | .trap t => .trap t

/-- Logical animation state (frame numbers are advanced by the renderer). -/
inductive AnimState where
  | noAnim
  | idle (n : Nat)
  | attacking (n : Nat) (dir : Arrow)
deriving DecidableEq

/-- A live entity.  The source also carries last_pos, glyph and color, which
are used only by rendering; they are omitted.  (Traps never move, so last_pos
always equals pos on traps and the structural equality used by resolve_traps
to locate a trap index is unaffected; glyph is a pure function of the trap
kind.) -/
structure Entity where
  pos : Pos
  typ : EntityType
  anim_state : AnimState
deriving DecidableEq

/-- Entity HasHp hp(); panics on traps in the source.  All uses below are
guarded (monster filters, player wellformedness), so the trap arm is modelled
as 0. -/
def Entity.hp : Entity → Int
  | ⟨_, .monster m, _⟩ => m.hp
  | ⟨_, .player p, _⟩ => p.hp
  | ⟨_, .trap _, _⟩ => 0

def blocked_tile (pos : Pos) (map : List Tile) : Bool :=
  map.any (fun tile => tile.blocks && tile.pos == pos)

def occupied_tile (pos : Pos) (entities : List Entity) : Option Entity :=
  entities.find? (fun e => e.pos == pos)

def trap_tile (pos : Pos) (entities : List Entity) : Option Entity :=
  entities.find? (fun e => e.typ.is_trap && e.pos == pos)

def clamp (lo hi v : Int) : Int :=
  if v < lo then lo else if v > hi then hi else v

/-- The per-axis step of a monster.  The source computes
pos_diff.abs().signum() * pos_diff.signum() on f32.  Rust f32::signum returns
1.0 on +0.0 (it is sign-bit based, unlike integer signum), and a difference of
two equal integral floats is +0.0, so abs().signum() is 1.0 for every integral
difference and the product is -1 for negative differences and +1 otherwise,
including at 0. -/
def fsign (d : Int) : Int := if d < 0 then -1 else 1

def MAP_WIDTH : Nat := 10
def MAP_HEIGHT : Nat := 10
def NUM_LEVEL_GAME : Nat := 4

/-- The player's index: Game::new sets player_id = 0 and it is never changed. -/
def player_id : Nat := 0

/-- Pressed-this-frame arrow keys (edge triggered input sample). -/
structure Keys where
  left : Bool
  right : Bool
  up : Bool
  down : Bool
deriving DecidableEq

/-- The candidate player position after the four sequential key tests of
update_player: the tests are sequential in the source, so several simultaneous
presses accumulate, and each axis is clamped to [0, MAP_WIDTH] resp.
[0, MAP_HEIGHT] (that is 0..10, not 0..9, as in the source). -/
def player_candidate (keys : Keys) (pos : Pos) : Pos :=
  let p1 : Pos := if keys.left then { pos with x := clamp 0 10 (pos.x - 1) } else pos
  let p2 : Pos := if keys.right then { p1 with x := clamp 0 10 (p1.x + 1) } else p1
  let p3 : Pos := if keys.up then { p2 with y := clamp 0 10 (p2.y - 1) } else p2
  if keys.down then { p3 with y := clamp 0 10 (p3.y + 1) } else p3

/-- update_player: apply one directional input to the player (entity 0).  A
candidate move into a blocking tile is reverted and does not count as a
turn. -/
def update_player (keys : Keys) (map : List Tile) (entities : List Entity) :
    Bool × List Entity :=
  match entities with
  | [] => (false, [])
  | player :: rest =>
    let previous_pos := player.pos
    let p4 := player_candidate keys player.pos
    let took_turn := keys.left || keys.right || keys.up || keys.down
    if blocked_tile p4 map then (false, { player with pos := previous_pos } :: rest)
    else (took_turn, { player with pos := p4 } :: rest)

/-- direction: facing derived from a movement vector (source fn direction). -/
def direction (dir : Pos) : Arrow :=
  if dir.x > 0 ∧ dir.y = 0 then .right
  else if dir.x = 0 ∧ dir.y < 0 then .up
  else if dir.x < 0 then .left
  else .down

/-- The candidate destination of a monster this turn.  Note the source rook
branch tests and zeroes the absolute coordinates of the destination
(pos_move), not the step deltas. -/
def monster_dest (map : List Tile) (player_pos : Pos) (monster : Entity) : Pos :=
  let dx := player_pos.x - monster.pos.x
  let dy := player_pos.y - monster.pos.y
  let m1 : Pos := { x := monster.pos.x + fsign dx, y := monster.pos.y + fsign dy }
  if monster.typ.is_rook ∧ m1.x.natAbs = m1.y.natAbs then
    if dx.natAbs > dy.natAbs ∧ blocked_tile m1 map = false then { m1 with y := 0 }
    else { m1 with x := 0 }
  else m1

/-- One monster's move, evaluated against the pre-turn snapshot.  Returns the
updated monster and whether an attack on the player was recorded. -/
def monster_step (map : List Tile) (snapshot : List Entity) (pl : Entity)
    (monster : Entity) : Entity × Bool :=
  let prev := monster.pos
  let pos_move := monster_dest map pl.pos monster
  if blocked_tile pos_move map then ({ monster with pos := prev }, false)
  else
    match occupied_tile pos_move snapshot with
    | some occ =>
      if occ.typ.is_player then
        ({ monster with
            pos := prev,
            anim_state := AnimState.attacking 0
              (direction ⟨pos_move.x - prev.x, pos_move.y - prev.y⟩) },
         true)
      else if occ.typ.is_monster then ({ monster with pos := prev }, false)
      else ({ monster with pos := pos_move }, false)
    | none => ({ monster with pos := pos_move }, false)

/-- The movement loop of update_monsters: every monster is stepped against the
snapshot; recorded attacks are (attacker index, player_id) pairs, in store
order. -/
def monster_moves_from (map : List Tile) (snapshot : List Entity) (pl : Entity) :
    Nat → List Entity → List Entity × List (Nat × Nat)
  | _i, [] => ([], [])
  | i, e :: rest =>
    let tail := monster_moves_from map snapshot pl (i + 1) rest
    if e.typ.is_monster then
      let step := monster_step map snapshot pl e
      (step.1 :: tail.1, (if step.2 then [(i, player_id)] else []) ++ tail.2)
    else (e :: tail.1, tail.2)

/-- Movement phase of update_monsters (the source indexes entities[player_id]
before the loop; an empty store would panic there and is modelled as a
no-op). -/
def monsters_phase (map : List Tile) (entities : List Entity) :
    List Entity × List (Nat × Nat) :=
  match entities[player_id]? with
  | none => (entities, [])
  | some pl => monster_moves_from map entities pl 0 entities

/-- Replace the typ of the entity at index i. -/
def modify_typ (entities : List Entity) (i : Nat) (f : EntityType → EntityType) :
    List Entity :=
  match entities[i]? with
  | some e => entities.set i { e with typ := f e.typ }
  | none => entities

/-- Combat resolution: each recorded attack applies a 1 point loss to the
defender (the source matches Player/Monster and calls lose_hp(1) on both; a
trap defender is left unchanged). -/
def apply_attacks (entities : List Entity) : List (Nat × Nat) → List Entity
  | [] => entities
  | (_atk, defender) :: rest =>
    apply_attacks (modify_typ entities defender (EntityType.lose_hp 1)) rest

/-- Rust Vec::swap_remove: overwrite index i with the last element and pop.
An out-of-range index panics in Rust; that case is modelled as the identity
(it is noted at the one claim where it can arise). -/
def swap_remove (l : List Entity) (i : Nat) : List Entity :=
  if i < l.length then
    match l.getLast? with
    | some last => (l.set i last).dropLast
    | none => l
  else l

/-- Indices (ascending, as the source collects them) of dead monsters. -/
def monster_dead_indices : Nat → List Entity → List Nat
  | _i, [] => []
  | i, e :: rest =>
    (if e.typ.is_monster ∧ e.hp ≤ 0 then [i] else []) ++
      monster_dead_indices (i + 1) rest

/-- update_monsters: movement phase, attack resolution, then removal of dead
monsters by swap_remove over the collected indices (in ascending order, as in
the source, which performs no sort here). -/
def update_monsters (map : List Tile) (entities : List Entity) : List Entity :=
  let phase := monsters_phase map entities
  let after_attacks := apply_attacks phase.1 phase.2
  (monster_dead_indices 0 after_attacks).foldl swap_remove after_attacks

/-- attempt_move: reject a move into a blocking tile. -/
def attempt_move (pos offset : Pos) (map : List Tile) : Pos :=
  let new_pos := Pos.add pos offset
  if blocked_tile new_pos map then pos else new_pos

def arrow_offset : Arrow → Pos
  | .left => ⟨-1, 0⟩
  | .right => ⟨1, 0⟩
  | .up => ⟨0, -1⟩
  | .down => ⟨0, 1⟩

/-- The Arrow trap slide: advance while the next tile is not blocking and is
free or occupied only by a trap; return the last passable position.  The
source uses an unbounded while loop; on the game's bordered grids it always
terminates within the grid, which the fuel argument (chosen larger than any
possible slide on the inputs considered) makes structural. -/
def arrow_slide (map : List Tile) (clone : List Entity) (step : Pos) :
    Nat → Pos → Pos → Pos
  | 0, _cur, prev => prev
  | fuel + 1, cur, prev =>
    if blocked_tile cur map = false ∧
        (occupied_tile cur clone = none ∨
          (occupied_tile cur clone).map (fun e => e.typ.is_trap) = some true) then
      arrow_slide map clone step fuel (Pos.add cur step) cur
    else prev

/-- The Teleport scan: for other_index in 0..len, look at
(other_index + trap_index + 1) % len and stop at the first Teleport trap.
fuel counts the remaining loop iterations, other_index is the loop variable. -/
def teleport_scan (clone : List Entity) (trap_index : Nat) :
    Nat → Nat → Option Pos
  | 0, _other_index => none
  | fuel + 1, other_index =>
    match clone[(other_index + trap_index + 1) % clone.length]? with
    | some other =>
      match other.typ with
      | .trap .teleport => some other.pos
      | _ => teleport_scan clone trap_index fuel (other_index + 1)
    | none => teleport_scan clone trap_index fuel (other_index + 1)

/-- Deferred effects accumulated by the trap scan. -/
structure TrapAcc where
  removals : List Nat
  moves : List (Pos × Nat)
  count_downs : List (Nat × Nat)
  next_level : Bool
  win : Bool
  rng : List (Int × Int)

/-- One entity's trap interaction, faithful to the source branches:
  * Berserk: the source writes the status into a pattern-bound copy
    (mut monster / mut player bind Copy values), so the stored entity is
    unchanged;
  * Kill: the entity loses 5 hp and the trap's index is scheduled for removal;
  * Teleport: the entity is moved to the scan result immediately;
  * Bump: a random offset (drawn from the rng list) is attempted immediately;
  * CountDown: at 0 the entity loses 5 hp, otherwise the decrement is buffered;
  * NextLevel / Win: the flag is raised if the entity is the player;
  * Arrow: the slide target is buffered in moves.
The trap index is the position of the first store element structurally equal
to the found trap (source: entities_clone.iter().position(..).unwrap()). -/
def resolve_trap_entity (map : List Tile) (clone : List Entity) (index : Nat)
    (entity : Entity) (acc : TrapAcc) : Entity × TrapAcc :=
  if entity.typ.is_player || entity.typ.is_monster then
    match trap_tile entity.pos clone with
    | some trap_entity =>
      let trap_index := (clone.findIdx? (fun other => other == trap_entity)).getD 0
      match trap_entity.typ with
      | .trap t =>
        match t with
        | .berserk => (entity, acc)
        | .kill =>
          ({ entity with typ := entity.typ.lose_hp 5 },
           { acc with removals := acc.removals ++ [trap_index] })
        | .teleport =>
          match teleport_scan clone trap_index clone.length 0 with
          | some p => ({ entity with pos := p }, acc)
          | none => (entity, acc)
        | .bump =>
          match acc.rng with
          | (ox, oy) :: rest =>
            ({ entity with pos := attempt_move entity.pos ⟨ox, oy⟩ map },
             { acc with rng := rest })
          | [] => ({ entity with pos := attempt_move entity.pos ⟨0, 0⟩ map }, acc)
        | .countDown n =>
          if n = 0 then ({ entity with typ := entity.typ.lose_hp 5 }, acc)
          else (entity, { acc with count_downs := acc.count_downs ++ [(trap_index, n - 1)] })
        | .nextLevel =>
          (entity, if entity.typ.is_player then { acc with next_level := true } else acc)
        | .win =>
          (entity, if entity.typ.is_player then { acc with win := true } else acc)
        | .arrow dir =>
          let step := arrow_offset dir
          let target := arrow_slide map clone step (map.length + clone.length + 2)
            (Pos.add entity.pos step) entity.pos
          (entity, { acc with moves := acc.moves ++ [(target, index)] })
      | _ => (entity, acc)
    | none => (entity, acc)
  else (entity, acc)

/-- The trap scan over the store in index order. -/
def resolve_traps_scan (map : List Tile) (clone : List Entity) :
    Nat → List Entity → TrapAcc → List Entity × TrapAcc
  | _i, [], acc => ([], acc)
  | i, e :: rest, acc =>
    let head := resolve_trap_entity map clone i e acc
    let tail := resolve_traps_scan map clone (i + 1) rest head.2
    (head.1 :: tail.1, tail.2)

/-- Set the position of the entity at index i. -/
def set_entity_pos (entities : List Entity) (i : Nat) (p : Pos) : List Entity :=
  match entities[i]? with
  | some e => entities.set i { e with pos := p }
  | none => entities

def apply_moves (entities : List Entity) : List (Pos × Nat) → List Entity
  | [] => entities
  | (p, i) :: rest => apply_moves (set_entity_pos entities i p) rest

def apply_count_downs (entities : List Entity) : List (Nat × Nat) → List Entity
  | [] => entities
  | (i, n) :: rest =>
    apply_count_downs (modify_typ entities i (fun _ => .trap (.countDown n))) rest

/-- Insert into a descending-sorted list of indices. -/
def insert_desc (i : Nat) : List Nat → List Nat
  | [] => [i]
  | j :: rest => if j ≥ i then j :: insert_desc i rest else i :: j :: rest

/-- removals.sort(); removals.reverse(): the removal indices in descending
order (duplicates kept, as in the source). -/
def sort_desc (l : List Nat) : List Nat :=
  l.foldr insert_desc []

def apply_removals (entities : List Entity) (removals : List Nat) : List Entity :=
  (sort_desc removals).foldl swap_remove entities

/-- resolve_traps: scan all players and monsters against the pre-pass snapshot,
then apply buffered arrow moves, countdown decrements and removals.  Returns
the updated store and the (next_level, win) flags. -/
def resolve_traps (entities : List Entity) (map : List Tile)
    (rng : List (Int × Int)) : List Entity × Bool × Bool :=
  let clone := entities
  let scan := resolve_traps_scan map clone 0 entities
    ⟨[], [], [], false, false, rng⟩
  let moved := apply_moves scan.1 scan.2.moves
  let counted := apply_count_downs moved scan.2.count_downs
  let removed := apply_removals counted scan.2.removals
  (removed, scan.2.next_level, scan.2.win)

inductive GameState where
  | playing (n : Nat)
  | lost
  | nextLevel (n : Nat)
  | win
deriving DecidableEq

/-- The logical game: level state, grid, entity store.  Assets, timers and
animations are cosmetic and omitted. -/
structure Game where
  game_state : GameState
  map : List Tile
  entities : List Entity
deriving DecidableEq

/-- The data produced by generate_map / generate_entities for a fresh level.
Both are driven by thread_rng in the source; their output is passed in as
data. -/
structure LevelGen where
  map : List Tile
  entities : List Entity
  player_pos : Pos

/-- The level state after the buffered flags of one turn (source lines: if
next_level then NextLevel(n) else if win then Win, otherwise unchanged). -/
def gameStateAfterFlags (next_level win : Bool) (n : Nat) : GameState :=
  if next_level then .nextLevel n else if win then .win else .playing n

def is_win_trap (e : Entity) : Bool :=
  match e.typ with
  | .trap .win => true
  | _ => false

/-- The Playing branch of Game::update: player move; if a turn was taken,
monsters then traps then the flag dispatch; then the player-death check and
the dead-monster filter (both run every update). -/
def update_playing (keys : Keys) (rng : List (Int × Int)) (g : Game) (n : Nat) :
    Game :=
  let step1 := update_player keys g.map g.entities
  let step2 :=
    if step1.1 then
      let es_m := update_monsters g.map step1.2
      let traps := resolve_traps es_m g.map rng
      (traps.1, gameStateAfterFlags traps.2.1 traps.2.2 n)
    else (step1.2, GameState.playing n)
  let st3 :=
    match step2.1[player_id]? with
    | some pe => if pe.hp ≤ 0 then GameState.lost else step2.2
    | none => step2.2
  let es3 := step2.1.filter (fun e => if e.typ.is_monster then decide (0 < e.hp) else true)
  { g with game_state := st3, entities := es3 }

/-- The Win branch of Game::update: the player is pinned to the first Win trap
(source: find(..).unwrap(); a store without a Win trap would panic, modelled
as a no-op). -/
def update_win (g : Game) : Game :=
  match g.entities.find? is_win_trap with
  | some stairs => { g with entities := set_entity_pos g.entities 0 stairs.pos }
  | none => g

/-- The NextLevel branch of Game::update. -/
def update_next_level (gen : LevelGen) (g : Game) (n : Nat) : Game :=
  if n ≥ NUM_LEVEL_GAME then { g with game_state := .win }
  else
    match g.entities with
    | player :: _ =>
      { g with
          map := gen.map,
          entities := { player with pos := gen.player_pos } :: gen.entities,
          game_state := .playing (n + 1) }
    | [] => g

/-- Game::update, one frame. -/
def Game.update (g : Game) (keys : Keys) (rng : List (Int × Int))
    (gen : LevelGen) : Game :=
  match g.game_state with
  | .win => update_win g
  | .nextLevel n => update_next_level gen g n
  | .playing n => update_playing keys rng g n
  | .lost => g

/-- Positions of the non-trap entities (player and monsters). -/
def non_trap_positions (entities : List Entity) : List Pos :=
  (entities.filter (fun e => !e.typ.is_trap)).map Entity.pos

/-- Wellformedness used by the wall-containment claim: no entity stands on a
blocking tile. -/
def all_unblocked (map : List Tile) (entities : List Entity) : Prop :=
  ∀ e ∈ entities, blocked_tile e.pos map = false

/-- The count of monsters whose computed destination this turn is the player's
tile. -/
def attackers_count (map : List Tile) (pl : Entity) (entities : List Entity) : Nat :=
  (entities.filter
    (fun e => e.typ.is_monster && monster_dest map pl.pos e == pl.pos)).length

/-- A player entity at (x, y) with 5/5 hp and no status, as Game::new builds
it. -/
def exPlayer (x y : Int) : Entity := ⟨⟨x, y⟩, .player ⟨5, 5, none⟩, .idle 0⟩

/-- A Gol monster at (x, y) (Entity::gol: 1 hp). -/
def exGol (x y : Int) : Entity := ⟨⟨x, y⟩, .monster ⟨1, 1, none, .gol⟩, .idle 0⟩

/-- A Rook monster at (x, y) (Entity::rook: 2 hp). -/
def exRook (x y : Int) : Entity := ⟨⟨x, y⟩, .monster ⟨2, 2, none, .rook⟩, .idle 0⟩

/-- A trap entity at (x, y). -/
def exTrap (x y : Int) (t : Trap) : Entity := ⟨⟨x, y⟩, .trap t, .idle 0⟩

/-- A frame in which only the Left key was pressed. -/
def exKeysLeft : Keys := ⟨true, false, false, false⟩

def exKeysNone : Keys := ⟨false, false, false, false⟩

/-- A trivial generated level (only consulted by the NextLevel branch, which
none of the concrete runs below enters). -/
def exGen : LevelGen := ⟨[], [], ⟨0, 0⟩⟩

/-- An index with a getElem? hit is in range. -/
theorem lt_of_getq {α : Type} {l : List α} {i : Nat} {a : α}
    (h : l[i]? = some a) : i < l.length := by
  by_contra hc
  rw [List.getElem?_eq_none (by omega)] at h
  cases h

/-- Setting the element a list already holds is the identity. -/
theorem set_getq_self {α : Type} (l : List α) (i : Nat) (a : α)
    (h : l[i]? = some a) : l.set i a = l := by
  induction l generalizing i with
  | nil => cases h
  | cons x t ih =>
    cases i with
    | zero =>
      simp only [List.getElem?_cons_zero, Option.some.injEq] at h
      simp [h]
    | succ n =>
      simp only [List.getElem?_cons_succ] at h
      simp [List.set, ih n h]

theorem not_player_of_monster {t : EntityType} (h : t.is_monster = true) :
    t.is_player = false := by
  cases t <;> simp_all [EntityType.is_monster, EntityType.is_player]

theorem not_monster_of_player {t : EntityType} (h : t.is_player = true) :
    t.is_monster = false := by
  cases t <;> simp_all [EntityType.is_monster, EntityType.is_player]

theorem not_trap_of_monster {t : EntityType} (h : t.is_monster = true) :
    t.is_trap = false := by
  cases t <;> simp_all [EntityType.is_monster, EntityType.is_trap]

theorem not_trap_of_player {t : EntityType} (h : t.is_player = true) :
    t.is_trap = false := by
  cases t <;> simp_all [EntityType.is_player, EntityType.is_trap]

/-- A monster step never changes the entity's kind payload (only pos and
animation state). -/
theorem monster_step_typ (map : List Tile) (snap : List Entity) (pl e : Entity) :
    (monster_step map snap pl e).1.typ = e.typ := by
  unfold monster_step
  dsimp only
  split
  · rfl
  · split
    · split
      · rfl
      · split <;> rfl
    · rfl

/-- A monster step either stays put or moves to the computed destination, and
it moves only when the destination is unblocked and not occupied (in the
snapshot) by a player or monster. -/
theorem monster_step_pos (map : List Tile) (snap : List Entity) (pl e : Entity) :
    (monster_step map snap pl e).1.pos = e.pos ∨
    ((monster_step map snap pl e).1.pos = monster_dest map pl.pos e ∧
      blocked_tile (monster_dest map pl.pos e) map = false ∧
      ∀ q, occupied_tile (monster_dest map pl.pos e) snap = some q →
        q.typ.is_player = false ∧ q.typ.is_monster = false) := by
  unfold monster_step
  dsimp only
  split
  · exact Or.inl rfl
  · rename_i hb
    split
    · rename_i occ ho
      split
      · exact Or.inl rfl
      · rename_i hpq
        split
        · exact Or.inl rfl
        · rename_i hmq
          refine Or.inr ⟨rfl, by simpa using hb, ?_⟩
          intro q hq
          rw [ho] at hq
          cases hq
          constructor
          · simpa using hpq
          · simpa using hmq
    · rename_i ho
      refine Or.inr ⟨rfl, by simpa using hb, ?_⟩
      intro q hq
      rw [ho] at hq
      cases hq

/-- The movement loop transforms each entry independently: monsters are
stepped, everything else is untouched. -/
theorem mmf_getq (map : List Tile) (snap : List Entity) (pl : Entity) :
    ∀ (start : Nat) (es : List Entity) (n : Nat) (e0 : Entity), es[n]? = some e0 →
      (monster_moves_from map snap pl start es).1[n]? =
        some (if e0.typ.is_monster then (monster_step map snap pl e0).1 else e0) := by
  intro start es
  induction es generalizing start with
  | nil => intro n e0 h; cases h
  | cons e rest ih =>
    intro n e0 h
    cases n with
    | zero =>
      simp only [List.getElem?_cons_zero, Option.some.injEq] at h
      rw [← h]
      unfold monster_moves_from
      dsimp only
      by_cases hm : e.typ.is_monster = true
      · simp [hm]
      · simp only [Bool.not_eq_true] at hm
        simp [hm]
    | succ k =>
      simp only [List.getElem?_cons_succ] at h
      unfold monster_moves_from
      dsimp only
      by_cases hm : e.typ.is_monster = true
      · simp only [hm, if_true, List.getElem?_cons_succ]
        exact ih (start + 1) k e0 h
      · simp only [Bool.not_eq_true] at hm
        simp only [hm, Bool.false_eq_true, if_false, List.getElem?_cons_succ]
        exact ih (start + 1) k e0 h

/-- Every attack recorded by the movement loop names player_id as defender. -/
theorem mmf_attacks_defender (map : List Tile) (snap : List Entity) (pl : Entity) :
    ∀ (start : Nat) (es : List Entity) (a : Nat × Nat),
      a ∈ (monster_moves_from map snap pl start es).2 → a.2 = player_id := by
  intro start es
  induction es generalizing start with
  | nil => intro a ha; cases ha
  | cons e rest ih =>
    intro a ha
    unfold monster_moves_from at ha
    by_cases hm : e.typ.is_monster = true
    · simp only [hm, if_true] at ha
      rcases List.mem_append.mp ha with h1 | h2
      · by_cases hs : (monster_step map snap pl e).2 = true
        · simp only [hs, if_true, List.mem_singleton] at h1
          subst h1
          rfl
        · simp only [Bool.not_eq_true] at hs
          simp [hs] at h1
      · exact ih (start + 1) a h2
    · simp only [Bool.not_eq_true] at hm
      simp only [hm, Bool.false_eq_true, if_false] at ha
      exact ih (start + 1) a ha

/-- apply_attacks leaves every index that is not a defender untouched. -/
theorem apply_attacks_getq_ne :
    ∀ (atks : List (Nat × Nat)) (es : List Entity) (i : Nat),
      (∀ a ∈ atks, a.2 ≠ i) → (apply_attacks es atks)[i]? = es[i]? := by
  intro atks
  induction atks with
  | nil => intro es i _; rfl
  | cons a rest ih =>
    intro es i hne
    obtain ⟨a1, a2⟩ := a
    show (apply_attacks (modify_typ es a2 (EntityType.lose_hp 1)) rest)[i]? = es[i]?
    rw [ih _ i (fun b hb => hne b (List.mem_cons_of_mem (a1, a2) hb))]
    have h2 : a2 ≠ i := hne (a1, a2) (List.mem_cons_self (a1, a2) rest)
    unfold modify_typ
    cases hq : es[a2]? with
    | none => rfl
    | some e =>
      show (es.set a2 { e with typ := EntityType.lose_hp 1 e.typ })[i]? = es[i]?
      exact List.getElem?_set_ne h2 ..

/-- On a store headed by the unique player, the movement phase is the loop over
the whole store with the head as the player. -/
theorem monsters_phase_cons (map : List Tile) (p : Entity) (rest : List Entity) :
    monsters_phase map (p :: rest) =
      monster_moves_from map (p :: rest) p 0 (p :: rest) := by
  simp [monsters_phase, player_id]

/-- dropLast preserves every entry except the last. -/
theorem dropLast_getq {α : Type} (l : List α) (i : Nat) (h : i + 1 < l.length) :
    l.dropLast[i]? = l[i]? := by
  have h1 : i < l.dropLast.length := by rw [List.length_dropLast]; omega
  have h2 : i < l.length := by omega
  rw [List.getElem?_eq_getElem h1, List.getElem?_eq_getElem h2, List.getElem_dropLast]

/-- With a positive index, swap_remove preserves the head entry. -/
theorem swap_remove_getq_zero (es : List Entity) (i : Nat) (hi : 1 ≤ i) :
    (swap_remove es i)[0]? = es[0]? := by
  unfold swap_remove
  split
  · rename_i hlt
    cases hl : es.getLast? with
    | none => rfl
    | some last =>
      have h0 : 0 + 1 < (es.set i last).length := by rw [List.length_set]; omega
      rw [dropLast_getq _ 0 h0]
      exact List.getElem?_set_ne (by omega) ..
  · rfl

/-- Folding swap_remove over positive indices preserves the head entry. -/
theorem foldl_swap_getq_zero :
    ∀ (idxs : List Nat) (es : List Entity), (∀ i ∈ idxs, 1 ≤ i) →
      (idxs.foldl swap_remove es)[0]? = es[0]? := by
  intro idxs
  induction idxs with
  | nil => intro es _; rfl
  | cons i tl ih =>
    intro es h
    show (tl.foldl swap_remove (swap_remove es i))[0]? = es[0]?
    rw [ih _ (fun j hj => h j (List.mem_cons_of_mem _ hj))]
    exact swap_remove_getq_zero es i (h i (List.mem_cons_self _ _))

/-- Elements of swap_remove come from the original list. -/
theorem mem_swap_remove {x : Entity} {es : List Entity} {i : Nat}
    (h : x ∈ swap_remove es i) : x ∈ es := by
  unfold swap_remove at h
  split at h
  · cases hl : es.getLast? with
    | none => rw [hl] at h; exact h
    | some last =>
      rw [hl] at h
      have h2 := (List.dropLast_sublist _).mem h
      rcases List.mem_or_eq_of_mem_set h2 with h3 | h3
      · exact h3
      · rw [h3]; exact List.mem_of_mem_getLast? hl
  · exact h

/-- Elements surviving a fold of swap_remove come from the original list. -/
theorem mem_foldl_swap :
    ∀ (idxs : List Nat) (es : List Entity) (x : Entity),
      x ∈ idxs.foldl swap_remove es → x ∈ es := by
  intro idxs
  induction idxs with
  | nil => intro es x h; exact h
  | cons i tl ih =>
    intro es x h
    exact mem_swap_remove (ih (swap_remove es i) x h)

/-- The dead-monster indices are bounded below by the start counter. -/
theorem dead_indices_ge : ∀ (start : Nat) (es : List Entity) (i : Nat),
    i ∈ monster_dead_indices start es → start ≤ i := by
  intro start es
  induction es generalizing start with
  | nil => intro i h; cases h
  | cons e tl ih =>
    intro i h
    unfold monster_dead_indices at h
    rcases List.mem_append.mp h with h1 | h2
    · split at h1
      · rcases List.mem_singleton.mp h1 with rfl; omega
      · cases h1
    · have := ih (start + 1) i h2; omega

/-- With the player (entity 0) itself as head of the store, a monster records
an attack exactly when its computed destination is the player's tile. -/
theorem monster_step_attacked (map : List Tile) (p : Entity) (rest : List Entity)
    (e : Entity) (hpl : p.typ.is_player = true)
    (hnp : ∀ x ∈ rest, x.typ.is_player = false)
    (hnb : blocked_tile p.pos map = false) :
    (monster_step map (p :: rest) p e).2 =
      (monster_dest map p.pos e == p.pos) := by
  unfold monster_step
  dsimp only
  by_cases hd : monster_dest map p.pos e = p.pos
  · have hocc : occupied_tile (monster_dest map p.pos e) (p :: rest) = some p := by
      rw [hd]
      unfold occupied_tile
      exact List.find?_cons_of_pos _ (by simp)
    rw [hd, hnb]
    simp only [Bool.false_eq_true, if_false]
    rw [hd] at hocc
    rw [hocc]
    simp [hpl]
  · have hrhs : (monster_dest map p.pos e == p.pos) = false :=
      beq_eq_false_iff_ne.mpr hd
    rw [hrhs]
    split
    · rfl
    · cases hocc : occupied_tile (monster_dest map p.pos e) (p :: rest) with
      | none => rfl
      | some occ =>
        have hocc' : List.find? (fun x => x.pos == monster_dest map p.pos e)
            (p :: rest) = some occ := hocc
        have hop : occ.typ.is_player = false := by
          have hmem := List.mem_of_find?_eq_some hocc'
          have hpos : (occ.pos == monster_dest map p.pos e) = true := by
            simpa using List.find?_some hocc'
          rcases List.mem_cons.mp hmem with rfl | hr
          · rw [beq_iff_eq] at hpos
            exact absurd hpos.symm hd
          · exact hnp _ hr
        simp only [hop, Bool.false_eq_true, if_false]
        split <;> rfl

/-- The number of recorded attacks equals the number of monsters whose
destination is the player's tile. -/
theorem mmf_attacks_length (map : List Tile) (p : Entity) (rest : List Entity)
    (hpl : p.typ.is_player = true)
    (hnp : ∀ x ∈ rest, x.typ.is_player = false)
    (hnb : blocked_tile p.pos map = false) :
    ∀ (start : Nat) (es : List Entity),
      (monster_moves_from map (p :: rest) p start es).2.length =
        (es.filter (fun e => e.typ.is_monster &&
          (monster_dest map p.pos e == p.pos))).length := by
  intro start es
  induction es generalizing start with
  | nil => rfl
  | cons e tl ih =>
    unfold monster_moves_from
    dsimp only
    by_cases hm : e.typ.is_monster = true
    · rw [monster_step_attacked map p rest e hpl hnp hnb]
      by_cases hdp : (monster_dest map p.pos e == p.pos) = true
      · simp [hm, hdp, List.filter_cons, ih (start + 1)]
      · simp only [Bool.not_eq_true] at hdp
        simp [hm, hdp, List.filter_cons, ih (start + 1)]
    · simp only [Bool.not_eq_true] at hm
      simp [hm, List.filter_cons, ih (start + 1)]

/-- Attacks that all target slot 0 accumulate on a player head as an hp loss of
one per attack. -/
theorem apply_attacks_player_head :
    ∀ (atks : List (Nat × Nat)) (es : List Entity) (pos : Pos) (pd : Player)
      (an : AnimState),
      (∀ a ∈ atks, a.2 = 0) → es[0]? = some ⟨pos, .player pd, an⟩ →
      (apply_attacks es atks)[0]? =
        some ⟨pos, .player { pd with hp := pd.hp - atks.length }, an⟩ := by
  intro atks
  induction atks with
  | nil =>
    intro es pos pd an _ h0
    show es[0]? = _
    rw [h0]
    simp
  | cons a tl ih =>
    intro es pos pd an hdef h0
    obtain ⟨a1, a2⟩ := a
    have ha2 : a2 = 0 := hdef (a1, a2) (List.mem_cons_self _ _)
    subst ha2
    show (apply_attacks (modify_typ es 0 (EntityType.lose_hp 1)) tl)[0]? = _
    have hset : (modify_typ es 0 (EntityType.lose_hp 1))[0]? =
        some ⟨pos, .player { pd with hp := pd.hp - 1 }, an⟩ := by
      unfold modify_typ
      rw [h0]
      show (es.set 0 _)[0]? = _
      rw [List.getElem?_set_self (lt_of_getq h0)]
      rfl
    rw [ih _ pos { pd with hp := pd.hp - 1 } an
        (fun b hb => hdef b (List.mem_cons_of_mem _ hb)) hset]
    have harith : pd.hp - 1 - (tl.length : Int) =
        pd.hp - (((a1, 0) :: tl).length : Int) := by
      simp only [List.length_cons]
      push_cast
      ring
    rw [harith]

/-- Monsters stepped against a snapshot headed by the player end away from the
player's tile: an attempt to enter it is converted into an attack. -/
theorem mmf_monsters_off (map : List Tile) (p : Entity) (rest : List Entity)
    (hpl : p.typ.is_player = true) :
    ∀ (start : Nat) (es : List Entity),
      (∀ e ∈ es, e.typ.is_monster = true → e.pos ≠ p.pos) →
      ∀ e' ∈ (monster_moves_from map (p :: rest) p start es).1,
        e'.typ.is_monster = true → e'.pos ≠ p.pos := by
  intro start es
  induction es generalizing start with
  | nil => intro _ e' h; cases h
  | cons e tl ih =>
    intro hh e' hmem hm'
    unfold monster_moves_from at hmem
    dsimp only at hmem
    by_cases hm : e.typ.is_monster = true
    · simp only [hm, if_true] at hmem
      rcases List.mem_cons.mp hmem with rfl | hr
      · rcases monster_step_pos map (p :: rest) p e with h1 | ⟨h2, _, h3⟩
        · rw [h1]; exact hh e (List.mem_cons_self ..) hm
        · rw [h2]
          intro hdp
          have hocc : occupied_tile (monster_dest map p.pos e) (p :: rest) =
              some p := by
            rw [hdp]
            unfold occupied_tile
            exact List.find?_cons_of_pos _ (by simp)
          have hcontra := (h3 p hocc).1
          rw [hpl] at hcontra
          cases hcontra
      · exact ih (start + 1) (fun x hx => hh x (List.mem_cons_of_mem _ hx)) e' hr hm'
    · simp only [Bool.not_eq_true] at hm
      simp only [hm, Bool.false_eq_true, if_false] at hmem
      rcases List.mem_cons.mp hmem with rfl | hr
      · rw [hm] at hm'; cases hm'
      · exact ih (start + 1) (fun x hx => hh x (List.mem_cons_of_mem _ hx)) e' hr hm'

/-- lose_hp never turns a non-monster into a monster. -/
theorem lose_hp_monster {t : EntityType} {amount : Int}
    (h : (EntityType.lose_hp amount t).is_monster = true) : t.is_monster = true := by
  cases t <;> simp_all [EntityType.lose_hp, EntityType.is_monster]

/-- lose_hp preserves positions trivially; combat resolution therefore keeps
every monster away from any tile all monsters already avoid. -/
theorem apply_attacks_monsters_off (q : Pos) :
    ∀ (atks : List (Nat × Nat)) (es : List Entity),
      (∀ e ∈ es, e.typ.is_monster = true → e.pos ≠ q) →
      ∀ e' ∈ apply_attacks es atks, e'.typ.is_monster = true → e'.pos ≠ q := by
  intro atks
  induction atks with
  | nil => intro es h; exact h
  | cons a tl ih =>
    intro es h e' hmem
    obtain ⟨a1, a2⟩ := a
    refine ih (modify_typ es a2 (EntityType.lose_hp 1)) ?_ e' hmem
    intro x hx hxm
    unfold modify_typ at hx
    cases hq : es[a2]? with
    | none => rw [hq] at hx; exact h x hx hxm
    | some e0 =>
      rw [hq] at hx
      rcases List.mem_or_eq_of_mem_set hx with h3 | h3
      · exact h x h3 hxm
      · subst h3
        have he0 : e0.typ.is_monster = true := lose_hp_monster hxm
        exact h e0 (List.getElem?_mem hq) he0

/-- After the whole of update_monsters, every monster is away from the
player's tile (shared by the no-double-occupancy amendment and the combat
symmetry claim). -/
theorem update_monsters_off_player (map : List Tile) (p : Entity)
    (rest : List Entity) (hpl : p.typ.is_player = true)
    (hmp : ∀ e ∈ rest, e.typ.is_monster = true → e.pos ≠ p.pos) :
    ∀ e' ∈ update_monsters map (p :: rest), e'.typ.is_monster = true →
      e'.pos ≠ p.pos := by
  intro e' hmem hm
  unfold update_monsters at hmem
  dsimp only at hmem
  rw [monsters_phase_cons] at hmem
  have hall : ∀ e ∈ p :: rest, e.typ.is_monster = true → e.pos ≠ p.pos := by
    intro x hx hxm
    rcases List.mem_cons.mp hx with rfl | hr
    · rw [not_monster_of_player hpl] at hxm; cases hxm
    · exact hmp x hr hxm
  have h1 := mem_foldl_swap _ _ _ hmem
  exact apply_attacks_monsters_off p.pos _ _
    (mmf_monsters_off map p rest hpl 0 (p :: rest) hall) e' h1 hm

/-- An in-range getElem? hit gives the getElem value. -/
theorem getq_to_getElem {α : Type} {l : List α} {i : Nat} {a : α}
    (h : l[i]? = some a) : ∃ hm : i < l.length, l.get ⟨i, hm⟩ = a := by
  have hlt := lt_of_getq h
  refine ⟨hlt, ?_⟩
  rw [List.getElem?_eq_getElem hlt] at h
  rw [List.get_eq_getElem]
  exact Option.some.inj h

/-- find? returns the element at the unique index satisfying the predicate. -/
theorem find?_unique_index {α : Type} (q : α → Bool) :
    ∀ (l : List α) (j : Nat) (x : α), l[j]? = some x → q x = true →
      (∀ (m : Nat) (y : α), l[m]? = some y → q y = true → m = j) →
      l.find? q = some x := by
  intro l
  induction l with
  | nil => intro j x hj _ _; cases hj
  | cons a tl ih =>
    intro j x hj hq huniq
    cases j with
    | zero =>
      simp only [List.getElem?_cons_zero, Option.some.injEq] at hj
      rw [List.find?_cons_of_pos _ (by rw [hj]; exact hq)]
      rw [hj]
    | succ k =>
      simp only [List.getElem?_cons_succ] at hj
      have ha : ¬ q a = true := by
        intro hqa
        exact absurd (huniq 0 a (by simp) hqa) (by omega)
      rw [List.find?_cons_of_neg _ ha]
      refine ih k x hj hq ?_
      intro m y hm hy
      have := huniq (m + 1) y (by simpa using hm) hy
      omega

/-- findIdx? returns the unique index satisfying the predicate. -/
theorem findIdx?_unique_index {α : Type} (q : α → Bool) :
    ∀ (l : List α) (j : Nat) (x : α) (s : Nat), l[j]? = some x → q x = true →
      (∀ (m : Nat) (y : α), l[m]? = some y → q y = true → m = j) →
      List.findIdx? q l s = some (s + j) := by
  intro l
  induction l with
  | nil => intro j x s hj _ _; cases hj
  | cons a tl ih =>
    intro j x s hj hq huniq
    cases j with
    | zero =>
      simp only [List.getElem?_cons_zero, Option.some.injEq] at hj
      show (if q a = true then some s else List.findIdx? q tl (s + 1)) = some (s + 0)
      rw [if_pos (by rw [hj]; exact hq)]
      simp
    | succ k =>
      simp only [List.getElem?_cons_succ] at hj
      have ha : ¬ q a = true := fun hqa =>
        absurd (huniq 0 a (by simp) hqa) (by omega)
      show (if q a = true then some s else List.findIdx? q tl (s + 1)) =
        some (s + (k + 1))
      rw [if_neg ha]
      rw [ih k x (s + 1) hj hq ?_]
      · congr 1
        omega
      · intro m y hm hy
        have := huniq (m + 1) y (by simpa using hm) hy
        omega

/-- Unfolding equation for one step of the teleport scan. -/
theorem teleport_scan_step (clone : List Entity) (tj f start : Nat) :
    teleport_scan clone tj (f + 1) start =
      match clone[(start + tj + 1) % clone.length]? with
      | some other =>
        match other.typ with
        | EntityType.trap Trap.teleport => some other.pos
        | _ => teleport_scan clone tj f (start + 1)
      | none => teleport_scan clone tj f (start + 1) := rfl

/-- A scan step that probes a Teleport trap returns its position. -/
theorem teleport_scan_step_hit (clone : List Entity) (tj f start : Nat)
    (y : Entity) (hy : clone[(start + tj + 1) % clone.length]? = some y)
    (hty : y.typ = EntityType.trap Trap.teleport) :
    teleport_scan clone tj (f + 1) start = some y.pos := by
  rw [teleport_scan_step, hy]
  obtain ⟨ypos, ytyp, yanim⟩ := y
  dsimp only at hty ⊢
  rw [hty]

/-- A scan step that probes no Teleport trap recurses. -/
theorem teleport_scan_step_skip (clone : List Entity) (tj f start : Nat)
    (hskip : ∀ y, clone[(start + tj + 1) % clone.length]? = some y →
      y.typ ≠ EntityType.trap Trap.teleport) :
    teleport_scan clone tj (f + 1) start =
      teleport_scan clone tj f (start + 1) := by
  rw [teleport_scan_step]
  cases hy : clone[(start + tj + 1) % clone.length]? with
  | none => rfl
  | some y =>
    obtain ⟨ypos, ytyp, yanim⟩ := y
    have hne := hskip ⟨ypos, ytyp, yanim⟩ hy
    dsimp only
    cases ytyp with
    | trap t =>
      cases t with
      | teleport => exact absurd rfl hne
      | berserk => rfl
      | kill => rfl
      | bump => rfl
      | countDown n => rfl
      | arrow dir => rfl
      | nextLevel => rfl
      | win => rfl
    | monster m => rfl
    | player pd => rfl

/-- The cyclic teleport scan stops at the first Teleport trap reached: if the
first d probed slots hold no Teleport trap and the slot at distance d holds one
at position p, the scan returns p. -/
theorem teleport_scan_hits (clone : List Entity) (tj : Nat) :
    ∀ (d fuel start : Nat) (p : Pos), d < fuel →
      (∀ s, s < d → ∀ y, clone[(start + s + tj + 1) % clone.length]? = some y →
        y.typ ≠ EntityType.trap Trap.teleport) →
      (∃ y, clone[(start + d + tj + 1) % clone.length]? = some y ∧
        y.typ = EntityType.trap Trap.teleport ∧ y.pos = p) →
      teleport_scan clone tj fuel start = some p := by
  intro d
  induction d with
  | zero =>
    intro fuel start p hfuel _ hex
    obtain ⟨y, hy, hty, hpy⟩ := hex
    rw [show start + 0 + tj + 1 = start + tj + 1 from by omega] at hy
    cases fuel with
    | zero => omega
    | succ f => rw [teleport_scan_step_hit clone tj f start y hy hty, hpy]
  | succ dd ih =>
    intro fuel start p hfuel hnot hex
    cases fuel with
    | zero => omega
    | succ f =>
      have hrec : teleport_scan clone tj f (start + 1) = some p := by
        refine ih f (start + 1) p (by omega) ?_ ?_
        · intro s hs y hy
          refine hnot (s + 1) (by omega) y ?_
          rw [show start + (s + 1) + tj + 1 = start + 1 + s + tj + 1 from
            by omega]
          exact hy
        · obtain ⟨y, hy, hty, hpy⟩ := hex
          refine ⟨y, ?_, hty, hpy⟩
          rw [show start + 1 + dd + tj + 1 = start + (dd + 1) + tj + 1 from
            by omega]
          exact hy
      refine Eq.trans (teleport_scan_step_skip clone tj f start ?_) hrec
      intro y hy
      refine hnot 0 (by omega) y ?_
      rw [show start + 0 + tj + 1 = start + tj + 1 from by omega]
      exact hy

/-- With exactly two Teleport traps at indices j and k, the scan started after
j lands on the trap at k. -/
theorem teleport_scan_two (clone : List Entity) (j k : Nat) (TA TB : Entity)
    (hj : clone[j]? = some TA) (hk : clone[k]? = some TB)
    (hTB : TB.typ = EntityType.trap Trap.teleport) (hjk : j ≠ k)
    (htp : ∀ (m : Nat) (em : Entity), clone[m]? = some em →
      em.typ = EntityType.trap Trap.teleport → m = j ∨ m = k) :
    teleport_scan clone j clone.length 0 = some TB.pos := by
  have hjlen : j < clone.length := lt_of_getq hj
  have hklen : k < clone.length := lt_of_getq hk
  by_cases hlt : j < k
  · refine teleport_scan_hits clone j (k - j - 1) clone.length 0 TB.pos
      (by omega) ?_ ?_
    · intro s hs y hy hty
      rw [Nat.zero_add, Nat.mod_eq_of_lt (by omega)] at hy
      rcases htp _ y hy hty with h | h <;> omega
    · refine ⟨TB, ?_, hTB, rfl⟩
      rw [Nat.zero_add, show k - j - 1 + j + 1 = k from by omega,
        Nat.mod_eq_of_lt hklen]
      exact hk
  · have hkj : k < j := by omega
    refine teleport_scan_hits clone j (clone.length - j - 1 + k) clone.length 0
      TB.pos (by omega) ?_ ?_
    · intro s hs y hy hty
      by_cases hw : s + j + 1 < clone.length
      · rw [Nat.zero_add, Nat.mod_eq_of_lt hw] at hy
        rcases htp _ y hy hty with h | h <;> omega
      · rw [Nat.zero_add, Nat.mod_eq_sub_mod (by omega),
          Nat.mod_eq_of_lt (by omega)] at hy
        rcases htp _ y hy hty with h | h <;> omega
    · refine ⟨TB, ?_, hTB, rfl⟩
      rw [Nat.zero_add, show clone.length - j - 1 + k + j + 1 =
        clone.length + k from by omega]
      rw [Nat.add_mod_left, Nat.mod_eq_of_lt hklen]
      exact hk

/-- With a single Teleport trap at index j, the scan started after j wraps all
the way around and returns the trap's own position. -/
theorem teleport_scan_single (clone : List Entity) (j : Nat) (TA : Entity)
    (hj : clone[j]? = some TA) (hTA : TA.typ = EntityType.trap Trap.teleport)
    (htp : ∀ (m : Nat) (em : Entity), clone[m]? = some em →
      em.typ = EntityType.trap Trap.teleport → m = j) :
    teleport_scan clone j clone.length 0 = some TA.pos := by
  have hjlen : j < clone.length := lt_of_getq hj
  refine teleport_scan_hits clone j (clone.length - 1) clone.length 0 TA.pos
    (by omega) ?_ ?_
  · intro s hs y hy hty
    by_cases hw : s + j + 1 < clone.length
    · rw [Nat.zero_add, Nat.mod_eq_of_lt hw] at hy
      have := htp _ y hy hty
      omega
    · rw [Nat.zero_add, Nat.mod_eq_sub_mod (by omega),
        Nat.mod_eq_of_lt (by omega)] at hy
      have := htp _ y hy hty
      omega
  · refine ⟨TA, ?_, hTA, rfl⟩
    rw [Nat.zero_add, show clone.length - 1 + j + 1 = clone.length + j from
      by omega]
    rw [Nat.add_mod_left, Nat.mod_eq_of_lt hjlen]
    exact hj

/-- Unfolding equation for the trap scan on a cons cell. -/
theorem scan_cons (map : List Tile) (clone : List Entity) (start : Nat)
    (e : Entity) (tl : List Entity) (acc : TrapAcc) :
    resolve_traps_scan map clone start (e :: tl) acc =
      ((resolve_trap_entity map clone start e acc).1 ::
        (resolve_traps_scan map clone (start + 1) tl
          (resolve_trap_entity map clone start e acc).2).1,
       (resolve_traps_scan map clone (start + 1) tl
          (resolve_trap_entity map clone start e acc).2).2) := rfl

/-- Each scanned entry is its entity processed at its own index (under some
accumulator). -/
theorem scan_getq (map : List Tile) (clone : List Entity) :
    ∀ (es : List Entity) (start : Nat) (acc : TrapAcc) (n : Nat) (e0 : Entity),
      es[n]? = some e0 →
      ∃ acc', (resolve_traps_scan map clone start es acc).1[n]? =
        some (resolve_trap_entity map clone (start + n) e0 acc').1 := by
  intro es
  induction es with
  | nil => intro start acc n e0 h; cases h
  | cons e tl ih =>
    intro start acc n e0 h
    cases n with
    | zero =>
      simp only [List.getElem?_cons_zero, Option.some.injEq] at h
      refine ⟨acc, ?_⟩
      rw [scan_cons]
      simp [← h]
    | succ k =>
      simp only [List.getElem?_cons_succ] at h
      obtain ⟨acc', hacc⟩ :=
        ih (start + 1) (resolve_trap_entity map clone start e acc).2 k e0 h
      refine ⟨acc', ?_⟩
      rw [scan_cons]
      simp only [List.getElem?_cons_succ]
      rw [show start + (k + 1) = start + 1 + k from by omega]
      exact hacc

/-- If every entity's trap interaction leaves the accumulator alone, the scan
returns the input accumulator. -/
theorem scan_acc_const (map : List Tile) (clone : List Entity) :
    ∀ (es : List Entity) (start : Nat) (acc : TrapAcc),
      (∀ e ∈ es, ∀ (i : Nat) (a : TrapAcc),
        (resolve_trap_entity map clone i e a).2 = a) →
      (resolve_traps_scan map clone start es acc).2 = acc := by
  intro es
  induction es with
  | nil => intro start acc _; rfl
  | cons e tl ih =>
    intro start acc hall
    rw [scan_cons]
    dsimp only
    rw [ih (start + 1) _ (fun x hx => hall x (List.mem_cons_of_mem _ hx))]
    exact hall e (List.mem_cons_self ..) start acc

/-- Evaluation of one trap interaction when the found trap is a Teleport: the
entity is moved to the scan result and the accumulator is untouched. -/
theorem rte_teleport (map : List Tile) (clone : List Entity) (i : Nat)
    (e : Entity) (acc : TrapAcc) (TA : Entity) (j : Nat)
    (hpm : (e.typ.is_player || e.typ.is_monster) = true)
    (htt : trap_tile e.pos clone = some TA)
    (hTA : TA.typ = EntityType.trap Trap.teleport)
    (hidx : clone.findIdx? (fun other => other == TA) = some j) :
    resolve_trap_entity map clone i e acc =
      ((match teleport_scan clone j clone.length 0 with
        | some p => { e with pos := p }
        | none => e), acc) := by
  unfold resolve_trap_entity
  rw [hpm, if_pos rfl, htt]
  obtain ⟨tapos, tatyp, taanim⟩ := TA
  dsimp only at hTA hidx
  subst hTA
  dsimp only
  rw [hidx, Option.getD_some]
  cases hs : teleport_scan clone j clone.length 0 <;> rfl

/-- In a store whose only traps are Teleport traps, no trap interaction changes
the accumulator. -/
theorem rte_acc_teleport_only (map : List Tile) (clone : List Entity)
    (honly : ∀ t ∈ clone, t.typ.is_trap = true →
      t.typ = EntityType.trap Trap.teleport) :
    ∀ (e : Entity) (i : Nat) (a : TrapAcc),
      (resolve_trap_entity map clone i e a).2 = a := by
  intro e i a
  unfold resolve_trap_entity
  by_cases hc : (e.typ.is_player || e.typ.is_monster) = true
  · rw [hc, if_pos rfl]
    cases htt : trap_tile e.pos clone with
    | none => rfl
    | some T =>
      have htt' : List.find? (fun x => x.typ.is_trap && x.pos == e.pos) clone
          = some T := htt
      have hTtrap : T.typ.is_trap = true := by
        have hq := List.find?_some htt'
        simp only [Bool.and_eq_true] at hq
        exact hq.1
      have hT : T.typ = EntityType.trap Trap.teleport :=
        honly T (List.mem_of_find?_eq_some htt') hTtrap
      obtain ⟨tpos, ttyp, tanim⟩ := T
      dsimp only at hT
      subst hT
      dsimp only
      split <;> rfl
  · rw [if_neg hc]

/-- In a store whose only traps are Teleport traps, resolve_traps is exactly
the scan: no buffered moves, countdowns or removals, and no flags. -/
theorem resolve_traps_teleport_only (es : List Entity) (map : List Tile)
    (rng : List (Int × Int))
    (honly : ∀ t ∈ es, t.typ.is_trap = true →
      t.typ = EntityType.trap Trap.teleport) :
    resolve_traps es map rng =
      ((resolve_traps_scan map es 0 es ⟨[], [], [], false, false, rng⟩).1,
        false, false) := by
  unfold resolve_traps
  dsimp only
  rw [scan_acc_const map es es 0 _
    (fun e _ i a => rte_acc_teleport_only map es honly e i a)]
  rfl

/-- C6: with exactly two Teleport traps (at indices j, k, at distinct
positions A, B), a player or monster standing on A at trap-resolution time is
moved to B (and symmetrically from B to A, by instantiating j and k the other
way); with exactly one Teleport trap, an entity standing on it keeps its
position (the cyclic scan wraps around to the trap itself). -/
theorem c6_teleport_cycle :
    (∀ (map : List Tile) (rng : List (Int × Int)) (es : List Entity)
      (i j k : Nat) (e TA TB : Entity),
      es[i]? = some e → (e.typ.is_player || e.typ.is_monster) = true →
      es[j]? = some TA → TA.typ = EntityType.trap Trap.teleport →
      es[k]? = some TB → TB.typ = EntityType.trap Trap.teleport →
      j ≠ k → TA.pos ≠ TB.pos → e.pos = TA.pos →
      (∀ (m : Nat) (hm : m < es.length),
        (es.get ⟨m, hm⟩).typ.is_trap = true → m = j ∨ m = k) →
      (resolve_traps es map rng).1[i]? = some { e with pos := TB.pos }) ∧
    (∀ (map : List Tile) (rng : List (Int × Int)) (es : List Entity)
      (i j : Nat) (e TA : Entity),
      es[i]? = some e → (e.typ.is_player || e.typ.is_monster) = true →
      es[j]? = some TA → TA.typ = EntityType.trap Trap.teleport →
      e.pos = TA.pos →
      (∀ (m : Nat) (hm : m < es.length),
        (es.get ⟨m, hm⟩).typ.is_trap = true → m = j) →
      (resolve_traps es map rng).1[i]? = some e) := by
  constructor
  · intro map rng es i j k e TA TB hi hpm hj hTA hk hTB hjk hAB hepos htp
    have htp' : ∀ (m : Nat) (em : Entity), es[m]? = some em →
        em.typ.is_trap = true → m = j ∨ m = k := by
      intro m em hm htr
      obtain ⟨hlt, hval⟩ := getq_to_getElem hm
      exact htp m hlt (by rw [hval]; exact htr)
    have honly : ∀ t ∈ es, t.typ.is_trap = true →
        t.typ = EntityType.trap Trap.teleport := by
      intro t ht htr
      obtain ⟨m, hm⟩ := List.mem_iff_getElem?.mp ht
      rcases htp' m t hm htr with h | h
      · subst h
        rw [hj] at hm
        rw [← Option.some.inj hm]
        exact hTA
      · subst h
        rw [hk] at hm
        rw [← Option.some.inj hm]
        exact hTB
    have htt : trap_tile e.pos es = some TA := by
      refine find?_unique_index _ es j TA hj ?_ ?_
      · simp only [Bool.and_eq_true, beq_iff_eq]
        constructor
        · rw [hTA]; rfl
        · exact hepos.symm
      · intro m y hm hq
        simp only [Bool.and_eq_true, beq_iff_eq] at hq
        rcases htp' m y hm hq.1 with h | h
        · exact h
        · exfalso
          subst h
          rw [hk] at hm
          have hyTB : y = TB := (Option.some.inj hm.symm)
          rw [hyTB] at hq
          rw [hepos] at hq
          exact hAB hq.2.symm
    have hidx : es.findIdx? (fun other => other == TA) = some j := by
      have h0 := findIdx?_unique_index (fun other => other == TA) es j TA 0
        hj (by simp) ?_
      · simpa using h0
      · intro m y hm hq
        have hyTA : y = TA := by simpa using hq
        rw [hyTA] at hm
        rcases htp' m TA hm (by rw [hTA]; rfl) with h | h
        · exact h
        · exfalso
          subst h
          rw [hk] at hm
          have hTBTA : TB = TA := Option.some.inj hm
          exact hAB (by rw [hTBTA])
    have hscan := teleport_scan_two es j k TA TB hj hk hTB hjk
      (fun m em hm hte => htp' m em hm (by rw [hte]; rfl))
    rw [resolve_traps_teleport_only es map rng honly]
    obtain ⟨acc', hacc⟩ :=
      scan_getq map es es 0 ⟨[], [], [], false, false, rng⟩ i e hi
    rw [show (0 : Nat) + i = i from by omega] at hacc
    rw [hacc]
    rw [rte_teleport map es i e acc' TA j hpm htt hTA hidx]
    rw [hscan]
  · intro map rng es i j e TA hi hpm hj hTA hepos htp
    have htp' : ∀ (m : Nat) (em : Entity), es[m]? = some em →
        em.typ.is_trap = true → m = j := by
      intro m em hm htr
      obtain ⟨hlt, hval⟩ := getq_to_getElem hm
      exact htp m hlt (by rw [hval]; exact htr)
    have honly : ∀ t ∈ es, t.typ.is_trap = true →
        t.typ = EntityType.trap Trap.teleport := by
      intro t ht htr
      obtain ⟨m, hm⟩ := List.mem_iff_getElem?.mp ht
      have h := htp' m t hm htr
      subst h
      rw [hj] at hm
      rw [← Option.some.inj hm]
      exact hTA
    have htt : trap_tile e.pos es = some TA := by
      refine find?_unique_index _ es j TA hj ?_ ?_
      · simp only [Bool.and_eq_true, beq_iff_eq]
        constructor
        · rw [hTA]; rfl
        · exact hepos.symm
      · intro m y hm hq
        simp only [Bool.and_eq_true, beq_iff_eq] at hq
        exact htp' m y hm hq.1
    have hidx : es.findIdx? (fun other => other == TA) = some j := by
      have h0 := findIdx?_unique_index (fun other => other == TA) es j TA 0
        hj (by simp) ?_
      · simpa using h0
      · intro m y hm hq
        have hyTA : y = TA := by simpa using hq
        rw [hyTA] at hm
        exact htp' m TA hm (by rw [hTA]; rfl)
    have hscan := teleport_scan_single es j TA hj hTA
      (fun m em hm hte => htp' m em hm (by rw [hte]; rfl))
    rw [resolve_traps_teleport_only es map rng honly]
    obtain ⟨acc', hacc⟩ :=
      scan_getq map es es 0 ⟨[], [], [], false, false, rng⟩ i e hi
    rw [show (0 : Nat) + i = i from by omega] at hacc
    rw [hacc]
    rw [rte_teleport map es i e acc' TA j hpm htt hTA hidx]
    rw [hscan]
    show some ({ e with pos := TA.pos } : Entity) = some e
    rw [show ({ e with pos := TA.pos } : Entity) = e from by rw [← hepos]]

/-- C6 witness: with teleports at (2, 2) and (7, 7), the player standing on
the first is moved to (7, 7); with a single teleport at (2, 2) the player is
unchanged. -/
theorem c6_witness :
    (resolve_traps [exPlayer 2 2, exTrap 2 2 .teleport, exTrap 7 7 .teleport]
        [] []).1[0]? = some { exPlayer 2 2 with pos := ⟨7, 7⟩ } ∧
    (resolve_traps [exPlayer 2 2, exTrap 2 2 .teleport] [] []).1[0]? =
      some (exPlayer 2 2) :=
  ⟨c6_teleport_cycle.1 [] []
      [exPlayer 2 2, exTrap 2 2 .teleport, exTrap 7 7 .teleport] 0 1 2
      (exPlayer 2 2) (exTrap 2 2 .teleport) (exTrap 7 7 .teleport)
      (by decide) (by decide) (by decide) (by decide) (by decide) (by decide)
      (by decide) (by decide) (by decide) (by decide),
    c6_teleport_cycle.2 [] [] [exPlayer 2 2, exTrap 2 2 .teleport] 0 1
      (exPlayer 2 2) (exTrap 2 2 .teleport)
      (by decide) (by decide) (by decide) (by decide) (by decide) (by decide)⟩

/-- Evaluation of one trap interaction when the found trap is a Kill trap: the
entity loses 5 hp and the trap's index is scheduled for removal. -/
theorem rte_kill (map : List Tile) (clone : List Entity) (i : Nat) (e : Entity)
    (acc : TrapAcc) (K : Entity) (t : Nat)
    (hpm : (e.typ.is_player || e.typ.is_monster) = true)
    (htt : trap_tile e.pos clone = some K)
    (hKt : K.typ = EntityType.trap Trap.kill)
    (hidx : clone.findIdx? (fun other => other == K) = some t) :
    resolve_trap_entity map clone i e acc =
      ({ e with typ := e.typ.lose_hp 5 },
       { acc with removals := acc.removals ++ [t] }) := by
  unfold resolve_trap_entity
  rw [hpm, if_pos rfl, htt]
  obtain ⟨kpos, ktyp, kanim⟩ := K
  dsimp only at hKt hidx
  subst hKt
  dsimp only
  rw [hidx, Option.getD_some]

/-- A player or monster standing on no trap tile is left untouched. -/
theorem rte_no_trap (map : List Tile) (clone : List Entity) (i : Nat)
    (e : Entity) (acc : TrapAcc) (htt : trap_tile e.pos clone = none) :
    resolve_trap_entity map clone i e acc = (e, acc) := by
  unfold resolve_trap_entity
  by_cases hc : (e.typ.is_player || e.typ.is_monster) = true
  · rw [hc, if_pos rfl, htt]
  · rw [if_neg hc]

/-- Entities that are neither player nor monster are skipped by the scan. -/
theorem rte_not_pm (map : List Tile) (clone : List Entity) (i : Nat)
    (e : Entity) (acc : TrapAcc)
    (h : (e.typ.is_player || e.typ.is_monster) = false) :
    resolve_trap_entity map clone i e acc = (e, acc) := by
  unfold resolve_trap_entity
  rw [if_neg (by rw [h]; exact Bool.false_ne_true)]

/-- A scan whose entities all interact trivially is the identity. -/
theorem scan_id (map : List Tile) (clone : List Entity) :
    ∀ (es : List Entity) (start : Nat) (acc : TrapAcc),
      (∀ e ∈ es, ∀ (i : Nat) (a : TrapAcc),
        resolve_trap_entity map clone i e a = (e, a)) →
      resolve_traps_scan map clone start es acc = (es, acc) := by
  intro es
  induction es with
  | nil => intro start acc _; rfl
  | cons e tl ih =>
    intro start acc hall
    rw [scan_cons]
    rw [hall e (List.mem_cons_self ..) start acc]
    rw [ih (start + 1) acc (fun x hx => hall x (List.mem_cons_of_mem _ hx))]

/-- swap_remove at a valid index shortens the list by one. -/
theorem swap_remove_length (l : List Entity) (i : Nat) (hi : i < l.length) :
    (swap_remove l i).length = l.length - 1 := by
  unfold swap_remove
  rw [if_pos hi]
  cases hl : l.getLast? with
  | none =>
    rw [List.getLast?_eq_none_iff.mp hl] at hi
    cases hi
  | some a => rw [List.length_dropLast, List.length_set]

/-- The entries of swap_remove: the removed slot holds the old last element,
all other surviving slots are untouched. -/
theorem swap_remove_getq (l : List Entity) (t : Nat) (ht : t < l.length)
    (m : Nat) (hm : m + 1 < l.length) :
    (swap_remove l t)[m]? = if m = t then l[l.length - 1]? else l[m]? := by
  unfold swap_remove
  rw [if_pos ht]
  cases hl : l.getLast? with
  | none =>
    rw [List.getLast?_eq_none_iff.mp hl] at ht
    cases ht
  | some a =>
    rw [dropLast_getq _ m (by rw [List.length_set]; omega)]
    by_cases hmt : m = t
    · subst hmt
      rw [if_pos rfl, List.getElem?_set_self (by omega)]
      rw [← List.getLast?_eq_getElem?, hl]
    · rw [if_neg hmt, List.getElem?_set_ne (fun h => hmt h.symm)]

/-- update_player never leaves the player on a blocking tile: the candidate is
either rejected (reverting to the old, unblocked position) or passes the
blocked_tile test. -/
theorem update_player_unblocked (keys : Keys) (map : List Tile)
    (es : List Entity) (h : all_unblocked map es) :
    all_unblocked map (update_player keys map es).2 := by
  unfold update_player
  cases es with
  | nil => exact h
  | cons pl rest =>
    dsimp only
    by_cases hb : blocked_tile (player_candidate keys pl.pos) map = true
    · rw [if_pos hb]
      intro e he
      rcases List.mem_cons.mp he with rfl | hr
      · exact h pl (List.mem_cons_self ..)
      · exact h e (List.mem_cons_of_mem _ hr)
    · rw [if_neg hb]
      simp only [Bool.not_eq_true] at hb
      intro e he
      rcases List.mem_cons.mp he with rfl | hr
      · exact hb
      · exact h e (List.mem_cons_of_mem _ hr)

/-- A monster step never lands on a blocking tile. -/
theorem monster_step_unblocked (map : List Tile) (snap : List Entity)
    (pl e : Entity) (h : blocked_tile e.pos map = false) :
    blocked_tile (monster_step map snap pl e).1.pos map = false := by
  rcases monster_step_pos map snap pl e with h1 | ⟨h2, hb, _⟩
  · rw [h1]; exact h
  · rw [h2]; exact hb

/-- The monster movement loop preserves wall containment. -/
theorem mmf_unblocked (map : List Tile) (snap : List Entity) (pl : Entity) :
    ∀ (start : Nat) (es : List Entity),
      (∀ e ∈ es, blocked_tile e.pos map = false) →
      ∀ e' ∈ (monster_moves_from map snap pl start es).1,
        blocked_tile e'.pos map = false := by
  intro start es
  induction es generalizing start with
  | nil => intro _ e' h'; cases h'
  | cons e tl ih =>
    intro hh e' hmem
    unfold monster_moves_from at hmem
    dsimp only at hmem
    by_cases hm : e.typ.is_monster = true
    · simp only [hm, if_true] at hmem
      rcases List.mem_cons.mp hmem with rfl | hr
      · exact monster_step_unblocked map snap pl e (hh e (List.mem_cons_self ..))
      · exact ih (start + 1) (fun x hx => hh x (List.mem_cons_of_mem _ hx)) e' hr
    · simp only [Bool.not_eq_true] at hm
      simp only [hm, Bool.false_eq_true, if_false] at hmem
      rcases List.mem_cons.mp hmem with rfl | hr
      · exact hh e' (List.mem_cons_self ..)
      · exact ih (start + 1) (fun x hx => hh x (List.mem_cons_of_mem _ hx)) e' hr

/-- Changing an entity's kind payload changes no position. -/
theorem modify_typ_unblocked (map : List Tile) (es : List Entity) (i : Nat)
    (f : EntityType → EntityType) (h : all_unblocked map es) :
    all_unblocked map (modify_typ es i f) := by
  unfold modify_typ
  cases hq : es[i]? with
  | none => exact h
  | some e0 =>
    intro e' he'
    rcases List.mem_or_eq_of_mem_set he' with h1 | h1
    · exact h e' h1
    · rw [h1]
      exact h e0 (List.getElem?_mem hq)

/-- Combat resolution preserves wall containment. -/
theorem apply_attacks_unblocked (map : List Tile) :
    ∀ (atks : List (Nat × Nat)) (es : List Entity),
      all_unblocked map es → all_unblocked map (apply_attacks es atks) := by
  intro atks
  induction atks with
  | nil => intro es h; exact h
  | cons a tl ih =>
    intro es h
    obtain ⟨a1, a2⟩ := a
    show all_unblocked map
      (apply_attacks (modify_typ es a2 (EntityType.lose_hp 1)) tl)
    exact ih _ (modify_typ_unblocked map es a2 _ h)

/-- update_monsters preserves wall containment. -/
theorem update_monsters_unblocked (map : List Tile) (es : List Entity)
    (h : all_unblocked map es) :
    all_unblocked map (update_monsters map es) := by
  intro e' he'
  unfold update_monsters at he'
  dsimp only at he'
  have h1 := mem_foldl_swap _ _ _ he'
  refine apply_attacks_unblocked map _ _ ?_ e' h1
  unfold monsters_phase
  cases hq : es[player_id]? with
  | none => exact h
  | some pl => exact fun x hx => mmf_unblocked map es pl 0 es h x hx

/-- attempt_move never lands on a blocking tile. -/
theorem attempt_move_unblocked (pos offset : Pos) (map : List Tile)
    (h : blocked_tile pos map = false) :
    blocked_tile (attempt_move pos offset map) map = false := by
  show blocked_tile
    (if blocked_tile (Pos.add pos offset) map = true then pos
      else Pos.add pos offset) map = false
  by_cases hb : blocked_tile (Pos.add pos offset) map = true
  · rw [if_pos hb]
    exact h
  · rw [if_neg hb]
    simpa using hb

/-- The arrow slide never lands on a blocking tile. -/
theorem arrow_slide_unblocked (map : List Tile) (clone : List Entity)
    (step : Pos) :
    ∀ (fuel : Nat) (cur prev : Pos), blocked_tile prev map = false →
      blocked_tile (arrow_slide map clone step fuel cur prev) map = false := by
  intro fuel
  induction fuel with
  | zero => intro cur prev h; exact h
  | succ f ih =>
    intro cur prev h
    unfold arrow_slide
    split
    · rename_i hcond
      exact ih _ cur hcond.1
    · exact h

/-- The teleport scan only ever returns a store entity's position. -/
theorem teleport_scan_mem (clone : List Entity) (tj : Nat) :
    ∀ (fuel start : Nat) (p : Pos),
      teleport_scan clone tj fuel start = some p →
      ∃ y ∈ clone, y.pos = p := by
  intro fuel
  induction fuel with
  | zero => intro start p h; cases h
  | succ f ih =>
    intro start p h
    rw [teleport_scan_step] at h
    cases hy : clone[(start + tj + 1) % clone.length]? with
    | none =>
      rw [hy] at h
      exact ih _ p h
    | some y =>
      rw [hy] at h
      obtain ⟨ypos, ytyp, yanim⟩ := y
      cases ytyp with
      | trap tk =>
        cases tk with
        | teleport =>
          refine ⟨⟨ypos, .trap .teleport, yanim⟩, List.getElem?_mem hy, ?_⟩
          exact (Option.some.inj h)
        | berserk => exact ih _ p h
        | kill => exact ih _ p h
        | bump => exact ih _ p h
        | countDown nn => exact ih _ p h
        | arrow dir => exact ih _ p h
        | nextLevel => exact ih _ p h
        | win => exact ih _ p h
      | monster m => exact ih _ p h
      | player pd => exact ih _ p h

/-- Per-kind evaluation of one trap interaction (Berserk). -/
theorem rte_eval_berserk (map : List Tile) (clone : List Entity) (i : Nat)
    (e : Entity) (acc : TrapAcc) (T : Entity)
    (hpm : (e.typ.is_player || e.typ.is_monster) = true)
    (htt : trap_tile e.pos clone = some T)
    (hT : T.typ = EntityType.trap Trap.berserk) :
    resolve_trap_entity map clone i e acc = (e, acc) := by
  unfold resolve_trap_entity
  rw [hpm, if_pos rfl, htt]
  obtain ⟨tpos, ttyp, tanim⟩ := T
  dsimp only at hT
  subst hT
  rfl

/-- Per-kind evaluation of one trap interaction (Kill). -/
theorem rte_eval_kill (map : List Tile) (clone : List Entity) (i : Nat)
    (e : Entity) (acc : TrapAcc) (T : Entity)
    (hpm : (e.typ.is_player || e.typ.is_monster) = true)
    (htt : trap_tile e.pos clone = some T)
    (hT : T.typ = EntityType.trap Trap.kill) :
    resolve_trap_entity map clone i e acc =
      ({ e with typ := e.typ.lose_hp 5 },
       { acc with removals := acc.removals ++
          [(clone.findIdx? (fun other => other == T)).getD 0] }) := by
  unfold resolve_trap_entity
  rw [hpm, if_pos rfl, htt]
  obtain ⟨tpos, ttyp, tanim⟩ := T
  dsimp only at hT
  subst hT
  rfl

/-- Per-kind evaluation of one trap interaction (Teleport). -/
theorem rte_eval_teleport (map : List Tile) (clone : List Entity) (i : Nat)
    (e : Entity) (acc : TrapAcc) (T : Entity)
    (hpm : (e.typ.is_player || e.typ.is_monster) = true)
    (htt : trap_tile e.pos clone = some T)
    (hT : T.typ = EntityType.trap Trap.teleport) :
    resolve_trap_entity map clone i e acc =
      (match teleport_scan clone
          ((clone.findIdx? (fun other => other == T)).getD 0)
          clone.length 0 with
       | some p => ({ e with pos := p }, acc)
       | none => (e, acc)) := by
  unfold resolve_trap_entity
  rw [hpm, if_pos rfl, htt]
  obtain ⟨tpos, ttyp, tanim⟩ := T
  dsimp only at hT
  subst hT
  rfl

/-- Per-kind evaluation of one trap interaction (Bump). -/
theorem rte_eval_bump (map : List Tile) (clone : List Entity) (i : Nat)
    (e : Entity) (acc : TrapAcc) (T : Entity)
    (hpm : (e.typ.is_player || e.typ.is_monster) = true)
    (htt : trap_tile e.pos clone = some T)
    (hT : T.typ = EntityType.trap Trap.bump) :
    resolve_trap_entity map clone i e acc =
      (match acc.rng with
       | (ox, oy) :: rest =>
         ({ e with pos := attempt_move e.pos ⟨ox, oy⟩ map },
          { acc with rng := rest })
       | [] => ({ e with pos := attempt_move e.pos ⟨0, 0⟩ map }, acc)) := by
  unfold resolve_trap_entity
  rw [hpm, if_pos rfl, htt]
  obtain ⟨tpos, ttyp, tanim⟩ := T
  dsimp only at hT
  subst hT
  rfl

/-- Per-kind evaluation of one trap interaction (CountDown). -/
theorem rte_eval_countdown (map : List Tile) (clone : List Entity) (i : Nat)
    (e : Entity) (acc : TrapAcc) (T : Entity) (n : Nat)
    (hpm : (e.typ.is_player || e.typ.is_monster) = true)
    (htt : trap_tile e.pos clone = some T)
    (hT : T.typ = EntityType.trap (Trap.countDown n)) :
    resolve_trap_entity map clone i e acc =
      (if n = 0 then ({ e with typ := e.typ.lose_hp 5 }, acc)
       else (e, { acc with count_downs := acc.count_downs ++
          [((clone.findIdx? (fun other => other == T)).getD 0, n - 1)] })) := by
  unfold resolve_trap_entity
  rw [hpm, if_pos rfl, htt]
  obtain ⟨tpos, ttyp, tanim⟩ := T
  dsimp only at hT
  subst hT
  rfl

/-- Per-kind evaluation of one trap interaction (NextLevel). -/
theorem rte_eval_next_level (map : List Tile) (clone : List Entity) (i : Nat)
    (e : Entity) (acc : TrapAcc) (T : Entity)
    (hpm : (e.typ.is_player || e.typ.is_monster) = true)
    (htt : trap_tile e.pos clone = some T)
    (hT : T.typ = EntityType.trap Trap.nextLevel) :
    resolve_trap_entity map clone i e acc =
      (e, if e.typ.is_player then { acc with next_level := true } else acc) := by
  unfold resolve_trap_entity
  rw [hpm, if_pos rfl, htt]
  obtain ⟨tpos, ttyp, tanim⟩ := T
  dsimp only at hT
  subst hT
  rfl

/-- Per-kind evaluation of one trap interaction (Win). -/
theorem rte_eval_win (map : List Tile) (clone : List Entity) (i : Nat)
    (e : Entity) (acc : TrapAcc) (T : Entity)
    (hpm : (e.typ.is_player || e.typ.is_monster) = true)
    (htt : trap_tile e.pos clone = some T)
    (hT : T.typ = EntityType.trap Trap.win) :
    resolve_trap_entity map clone i e acc =
      (e, if e.typ.is_player then { acc with win := true } else acc) := by
  unfold resolve_trap_entity
  rw [hpm, if_pos rfl, htt]
  obtain ⟨tpos, ttyp, tanim⟩ := T
  dsimp only at hT
  subst hT
  rfl

/-- Per-kind evaluation of one trap interaction (Arrow). -/
theorem rte_eval_arrow (map : List Tile) (clone : List Entity) (i : Nat)
    (e : Entity) (acc : TrapAcc) (T : Entity) (dir : Arrow)
    (hpm : (e.typ.is_player || e.typ.is_monster) = true)
    (htt : trap_tile e.pos clone = some T)
    (hT : T.typ = EntityType.trap (Trap.arrow dir)) :
    resolve_trap_entity map clone i e acc =
      (e, { acc with moves := acc.moves ++
        [(arrow_slide map clone (arrow_offset dir)
            (map.length + clone.length + 2)
            (Pos.add e.pos (arrow_offset dir)) e.pos, i)] }) := by
  unfold resolve_trap_entity
  rw [hpm, if_pos rfl, htt]
  obtain ⟨tpos, ttyp, tanim⟩ := T
  dsimp only at hT
  subst hT
  rfl

/-- One trap interaction keeps the entity off blocking tiles and buffers only
unblocked slide targets. -/
theorem rte_unblocked (map : List Tile) (clone : List Entity) (i : Nat)
    (e : Entity) (acc : TrapAcc)
    (hcl : all_unblocked map clone)
    (he : blocked_tile e.pos map = false)
    (hmv : ∀ q ∈ acc.moves, blocked_tile q.1 map = false) :
    blocked_tile (resolve_trap_entity map clone i e acc).1.pos map = false ∧
    ∀ q ∈ (resolve_trap_entity map clone i e acc).2.moves,
      blocked_tile q.1 map = false := by
  by_cases hc : (e.typ.is_player || e.typ.is_monster) = true
  · cases htt : trap_tile e.pos clone with
    | none => rw [rte_no_trap map clone i e acc htt]; exact ⟨he, hmv⟩
    | some T =>
      cases hTk : T.typ with
      | monster m =>
        exfalso
        have htt' : List.find? (fun x => x.typ.is_trap && x.pos == e.pos) clone
            = some T := htt
        have hq := List.find?_some htt'
        simp only [Bool.and_eq_true] at hq
        rw [hTk] at hq
        exact absurd hq.1 (by simp [EntityType.is_trap])
      | player pd =>
        exfalso
        have htt' : List.find? (fun x => x.typ.is_trap && x.pos == e.pos) clone
            = some T := htt
        have hq := List.find?_some htt'
        simp only [Bool.and_eq_true] at hq
        rw [hTk] at hq
        exact absurd hq.1 (by simp [EntityType.is_trap])
      | trap tk =>
      cases tk with
      | berserk => rw [rte_eval_berserk map clone i e acc T hc htt hTk]; exact ⟨he, hmv⟩
      | kill => rw [rte_eval_kill map clone i e acc T hc htt hTk]; exact ⟨he, hmv⟩
      | teleport =>
        rw [rte_eval_teleport map clone i e acc T hc htt hTk]
        cases hscan : teleport_scan clone
            ((clone.findIdx? (fun other => other == T)).getD 0)
            clone.length 0 with
        | none => exact ⟨he, hmv⟩
        | some p =>
          obtain ⟨y, hy, hpy⟩ := teleport_scan_mem clone _ _ _ p hscan
          refine ⟨?_, hmv⟩
          show blocked_tile p map = false
          rw [← hpy]
          exact hcl y hy
      | bump =>
        rw [rte_eval_bump map clone i e acc T hc htt hTk]
        cases hrng : acc.rng with
        | nil => exact ⟨attempt_move_unblocked e.pos ⟨0, 0⟩ map he, hmv⟩
        | cons q rest =>
          obtain ⟨ox, oy⟩ := q
          exact ⟨attempt_move_unblocked e.pos ⟨ox, oy⟩ map he, hmv⟩
      | countDown n =>
        rw [rte_eval_countdown map clone i e acc T n hc htt hTk]
        by_cases hn : n = 0
        · rw [if_pos hn]; exact ⟨he, hmv⟩
        · rw [if_neg hn]; exact ⟨he, hmv⟩
      | nextLevel =>
        rw [rte_eval_next_level map clone i e acc T hc htt hTk]
        refine ⟨he, ?_⟩
        by_cases hp : e.typ.is_player = true
        · rw [if_pos hp]; exact hmv
        · rw [if_neg hp]; exact hmv
      | win =>
        rw [rte_eval_win map clone i e acc T hc htt hTk]
        refine ⟨he, ?_⟩
        by_cases hp : e.typ.is_player = true
        · rw [if_pos hp]; exact hmv
        · rw [if_neg hp]; exact hmv
      | arrow dir =>
        rw [rte_eval_arrow map clone i e acc T dir hc htt hTk]
        refine ⟨he, ?_⟩
        intro q hq
        rcases List.mem_append.mp hq with h1 | h1
        · exact hmv q h1
        · rcases List.mem_singleton.mp h1 with rfl
          exact arrow_slide_unblocked map clone (arrow_offset dir) _ _ e.pos he
  · rw [rte_not_pm map clone i e acc (by simpa using hc)]
    exact ⟨he, hmv⟩

/-- The trap scan preserves wall containment, for both the processed entities
and the buffered moves. -/
theorem scan_unblocked (map : List Tile) (clone : List Entity)
    (hcl : all_unblocked map clone) :
    ∀ (es : List Entity) (start : Nat) (acc : TrapAcc),
      all_unblocked map es →
      (∀ q ∈ acc.moves, blocked_tile q.1 map = false) →
      all_unblocked map (resolve_traps_scan map clone start es acc).1 ∧
      (∀ q ∈ (resolve_traps_scan map clone start es acc).2.moves,
        blocked_tile q.1 map = false) := by
  intro es
  induction es with
  | nil =>
    intro start acc _ hmv
    exact ⟨fun e' h => (by cases h), hmv⟩
  | cons e tl ih =>
    intro start acc hes hmv
    rw [scan_cons]
    obtain ⟨h1, h2⟩ := rte_unblocked map clone start e acc hcl
      (hes e (List.mem_cons_self ..)) hmv
    obtain ⟨h3, h4⟩ :=
      ih (start + 1) _ (fun x hx => hes x (List.mem_cons_of_mem _ hx)) h2
    constructor
    · intro e' he'
      rcases List.mem_cons.mp he' with rfl | hr
      · exact h1
      · exact h3 e' hr
    · exact h4

/-- Setting an entity's position to an unblocked target preserves wall
containment. -/
theorem set_entity_pos_unblocked (map : List Tile) (es : List Entity) (i : Nat)
    (pnew : Pos) (h : all_unblocked map es)
    (hp : blocked_tile pnew map = false) :
    all_unblocked map (set_entity_pos es i pnew) := by
  unfold set_entity_pos
  cases hq : es[i]? with
  | none => exact h
  | some e0 =>
    intro e' he'
    rcases List.mem_or_eq_of_mem_set he' with h1 | h1
    · exact h e' h1
    · rw [h1]
      exact hp

/-- Applying the buffered arrow moves preserves wall containment. -/
theorem apply_moves_unblocked (map : List Tile) :
    ∀ (mvs : List (Pos × Nat)) (es : List Entity),
      all_unblocked map es → (∀ q ∈ mvs, blocked_tile q.1 map = false) →
      all_unblocked map (apply_moves es mvs) := by
  intro mvs
  induction mvs with
  | nil => intro es h _; exact h
  | cons q tl ih =>
    intro es h hq
    obtain ⟨qp, qi⟩ := q
    show all_unblocked map (apply_moves (set_entity_pos es qi qp) tl)
    exact ih _ (set_entity_pos_unblocked map es qi qp h
      (hq (qp, qi) (List.mem_cons_self ..)))
      (fun x hx => hq x (List.mem_cons_of_mem _ hx))

/-- Applying countdown decrements preserves wall containment. -/
theorem apply_count_downs_unblocked (map : List Tile) :
    ∀ (cds : List (Nat × Nat)) (es : List Entity),
      all_unblocked map es → all_unblocked map (apply_count_downs es cds) := by
  intro cds
  induction cds with
  | nil => intro es h; exact h
  | cons c tl ih =>
    intro es h
    obtain ⟨ci, cn⟩ := c
    show all_unblocked map
      (apply_count_downs (modify_typ es ci (fun _ => .trap (.countDown cn))) tl)
    exact ih _ (modify_typ_unblocked map es ci _ h)

/-- Applying removals preserves wall containment. -/
theorem apply_removals_unblocked (map : List Tile) (es : List Entity)
    (rems : List Nat) (h : all_unblocked map es) :
    all_unblocked map (apply_removals es rems) :=
  fun e' he' => h e' (mem_foldl_swap _ _ _ he')

/-- resolve_traps preserves wall containment. -/
theorem resolve_traps_unblocked (es : List Entity) (map : List Tile)
    (rng : List (Int × Int)) (h : all_unblocked map es) :
    all_unblocked map (resolve_traps es map rng).1 := by
  unfold resolve_traps
  dsimp only
  obtain ⟨h1, h2⟩ := scan_unblocked map es h es 0 ⟨[], [], [], false, false, rng⟩
    h (fun q hq => by cases hq)
  exact apply_removals_unblocked map _ _
    (apply_count_downs_unblocked map _ _
      (apply_moves_unblocked map _ _ h1 h2))

/-- C2: a Playing-state update preserves wall containment: if no entity stands
on a blocking tile, then after the whole turn pipeline (player move, monster
moves, every trap-induced move — Bump, Teleport, Arrow — and all removals) no
entity stands on a blocking tile. -/
theorem c2_wall_containment (g : Game) (keys : Keys) (rng : List (Int × Int))
    (gen : LevelGen) (n : Nat) (hst : g.game_state = GameState.playing n)
    (hun : all_unblocked g.map g.entities) :
    all_unblocked (Game.update g keys rng gen).map
      (Game.update g keys rng gen).entities := by
  obtain ⟨gs, mp, es⟩ := g
  dsimp only at hst hun
  subst hst
  show all_unblocked (update_playing keys rng ⟨GameState.playing n, mp, es⟩ n).map
    (update_playing keys rng ⟨GameState.playing n, mp, es⟩ n).entities
  unfold update_playing
  dsimp only
  have hup := update_player_unblocked keys mp es hun
  intro e' he'
  have he2 := (List.mem_filter.mp he').1
  by_cases htook : (update_player keys mp es).1 = true
  · rw [if_pos htook] at he2
    exact resolve_traps_unblocked _ mp rng
      (update_monsters_unblocked mp _ hup) e' he2
  · rw [if_neg htook] at he2
    exact hup e' he2

/-- C2 witness: a one-tile wall at (0, 0), player at (1, 1), pressing Left
(into the unblocked (0, 1)): every entity stays off blocking tiles. -/
theorem c2_witness :
    all_unblocked
      (Game.update ⟨.playing 0, [⟨⟨0, 0⟩, true⟩], [exPlayer 1 1]⟩
        exKeysLeft [] exGen).map
      (Game.update ⟨.playing 0, [⟨⟨0, 0⟩, true⟩], [exPlayer 1 1]⟩
        exKeysLeft [] exGen).entities :=
  c2_wall_containment _ exKeysLeft [] exGen 0 rfl
    (fun e he => by rcases List.mem_singleton.mp he with rfl; decide)

/-- C7 amended: a Kill trap with exactly one (player) entity standing on it
inflicts exactly 5 hp of damage on it, the trap is removed after the pass and
fires no more, and nothing else happens: every other entity survives, exactly
one entity (the trap) is removed, no trap remains, and no level flag fires. -/
theorem c7_amended_kill_one_shot (map : List Tile) (rng : List (Int × Int))
    (pp : Pos) (pd : Player) (pa : AnimState) (rest : List Entity)
    (K : Entity) (t : Nat)
    (hK : ((⟨pp, .player pd, pa⟩ : Entity) :: rest)[t]? = some K)
    (ht : 1 ≤ t)
    (hKt : K.typ = EntityType.trap Trap.kill)
    (hKpos : K.pos = pp)
    (hrest : ∀ e ∈ rest, e ≠ K → e.typ.is_monster = true ∧ e.pos ≠ pp)
    (htp : ∀ (m : Nat)
      (hm : m < ((⟨pp, .player pd, pa⟩ : Entity) :: rest).length),
      ((((⟨pp, .player pd, pa⟩ : Entity) :: rest)).get ⟨m, hm⟩).typ.is_trap =
        true → m = t) :
    (resolve_traps ((⟨pp, .player pd, pa⟩ : Entity) :: rest) map rng).1[0]? =
      some ⟨pp, .player { pd with hp := pd.hp - 5 }, pa⟩ ∧
    (∀ e' ∈ (resolve_traps ((⟨pp, .player pd, pa⟩ : Entity) :: rest) map rng).1,
      e'.typ.is_trap = false) ∧
    (∀ e ∈ rest, e ≠ K →
      e ∈ (resolve_traps ((⟨pp, .player pd, pa⟩ : Entity) :: rest) map rng).1) ∧
    (resolve_traps ((⟨pp, .player pd, pa⟩ : Entity) :: rest) map rng).1.length =
      rest.length ∧
    (resolve_traps ((⟨pp, .player pd, pa⟩ : Entity) :: rest) map rng).2.1 =
      false ∧
    (resolve_traps ((⟨pp, .player pd, pa⟩ : Entity) :: rest) map rng).2.2 =
      false := by
  set p : Entity := ⟨pp, .player pd, pa⟩ with hp_def
  have hlen : t < (p :: rest).length := lt_of_getq hK
  have htp' : ∀ (m : Nat) (em : Entity), (p :: rest)[m]? = some em →
      em.typ.is_trap = true → m = t := by
    intro m em hm htr
    obtain ⟨hl, hval⟩ := getq_to_getElem hm
    exact htp m hl (by rw [hval]; exact htr)
  have htt : trap_tile p.pos (p :: rest) = some K := by
    refine find?_unique_index _ (p :: rest) t K hK ?_ ?_
    · simp only [Bool.and_eq_true, beq_iff_eq]
      exact ⟨by rw [hKt]; rfl, hKpos⟩
    · intro m y hm hq
      simp only [Bool.and_eq_true, beq_iff_eq] at hq
      exact htp' m y hm hq.1
  have hidx : (p :: rest).findIdx? (fun other => other == K) = some t := by
    have h0 := findIdx?_unique_index (fun other => other == K) (p :: rest) t K
      0 hK (by simp) ?_
    · simpa using h0
    · intro m y hm hq
      have hyK : y = K := by simpa using hq
      rw [hyK] at hm
      exact htp' m K hm (by rw [hKt]; rfl)
  have hall : ∀ e ∈ rest, ∀ (i : Nat) (a : TrapAcc),
      resolve_trap_entity map (p :: rest) i e a = (e, a) := by
    intro e he i a
    by_cases heK : e = K
    · subst heK
      exact rte_not_pm map (p :: rest) i e a (by rw [hKt]; rfl)
    · refine rte_no_trap map (p :: rest) i e a ?_
      refine List.find?_eq_none.mpr ?_
      intro x hx
      simp only [Bool.and_eq_true, beq_iff_eq, not_and]
      intro hxtrap
      obtain ⟨m, hm⟩ := List.mem_iff_getElem?.mp hx
      have hmt := htp' m x hm hxtrap
      rw [hmt, hK] at hm
      rw [← Option.some.inj hm, hKpos]
      exact fun hc => (hrest e he heK).2 hc.symm
  have hscan_res : resolve_traps (p :: rest) map rng =
      (swap_remove ({ p with typ := p.typ.lose_hp 5 } :: rest) t,
        false, false) := by
    unfold resolve_traps
    dsimp only
    rw [scan_cons]
    rw [rte_kill map (p :: rest) 0 p ⟨[], [], [], false, false, rng⟩ K t
      (by rw [hp_def]; rfl) htt hKt hidx]
    rw [scan_id map (p :: rest) rest 1 _ hall]
    rfl
  have hKrest : ({ p with typ := p.typ.lose_hp 5 } :: rest)[t]? = some K := by
    obtain ⟨n, rfl⟩ : ∃ n, t = n + 1 := ⟨t - 1, by omega⟩
    simp only [List.getElem?_cons_succ] at hK ⊢
    exact hK
  have hlen' : t < ({ p with typ := p.typ.lose_hp 5 } :: rest).length := by
    simpa using hlen
  have htail_ne : ∀ (m : Nat) (y : Entity), m ≠ t →
      ({ p with typ := p.typ.lose_hp 5 } :: rest)[m]? = some y →
      y.typ.is_trap = false := by
    intro m y hmt hm
    cases m with
    | zero =>
      simp only [List.getElem?_cons_zero, Option.some.injEq] at hm
      rw [← hm]
      rfl
    | succ n =>
      simp only [List.getElem?_cons_succ] at hm
      have hyK : y ≠ K := by
        intro hy
        rw [hy] at hm
        exact hmt (htp' (n + 1) K (by simpa using hm) (by rw [hKt]; rfl))
      exact not_trap_of_monster
        ((hrest y (List.getElem?_mem hm) hyK).1)
  have hlen2 : ({ p with typ := p.typ.lose_hp 5 } :: rest).length =
      rest.length + 1 := by simp
  have hlent : t < rest.length + 1 := by
    simp only [List.length_cons] at hlen
    exact hlen
  refine ⟨?_, ?_, ?_, ?_, ?_, ?_⟩
  · rw [hscan_res]
    dsimp only
    rw [swap_remove_getq _ t hlen' 0 (by rw [hlen2]; omega)]
    rw [if_neg (by omega)]
    simp only [List.getElem?_cons_zero]
    rfl
  · rw [hscan_res]
    dsimp only
    intro e' he'
    obtain ⟨m, hm⟩ := List.mem_iff_getElem?.mp he'
    have hmlen : m < (swap_remove ({ p with typ := p.typ.lose_hp 5 } :: rest)
        t).length := lt_of_getq hm
    rw [swap_remove_length _ t hlen', hlen2] at hmlen
    rw [swap_remove_getq _ t hlen' m (by rw [hlen2]; omega)] at hm
    by_cases hmt : m = t
    · rw [if_pos hmt, hlen2] at hm
      rw [show rest.length + 1 - 1 = rest.length from by omega] at hm
      exact htail_ne rest.length e' (by omega) hm
    · rw [if_neg hmt] at hm
      exact htail_ne m e' hmt hm
  · rw [hscan_res]
    dsimp only
    intro e he heK
    obtain ⟨n, hn⟩ := List.mem_iff_getElem?.mp he
    have hn' : ({ p with typ := p.typ.lose_hp 5 } :: rest)[n + 1]? = some e := by
      simpa using hn
    have hnlen : n + 1 < rest.length + 1 := by
      have := lt_of_getq hn
      omega
    have hne : n + 1 ≠ t := by
      intro hc
      rw [hc] at hn'
      rw [hKrest] at hn'
      exact heK (Option.some.inj hn'.symm)
    by_cases hlast : n + 1 = rest.length
    · have hswap := swap_remove_getq ({ p with typ := p.typ.lose_hp 5 } :: rest)
        t hlen' t (by rw [hlen2]; omega)
      rw [if_pos rfl, hlen2] at hswap
      rw [show rest.length + 1 - 1 = rest.length from by omega, ← hlast,
        hn'] at hswap
      exact List.getElem?_mem hswap
    · have hswap := swap_remove_getq ({ p with typ := p.typ.lose_hp 5 } :: rest)
        t hlen' (n + 1) (by rw [hlen2]; omega)
      rw [if_neg hne, hn'] at hswap
      exact List.getElem?_mem hswap
  · rw [hscan_res]
    dsimp only
    rw [swap_remove_length _ t hlen', hlen2]
    omega
  · rw [hscan_res]
  · rw [hscan_res]

/-- C7 amended witness: the player at (3, 3) on a Kill trap at (3, 3), with a
bystander Gol at (6, 6): the player drops to 0 hp and the store afterwards
holds exactly the player and the Gol. -/
theorem c7_amended_witness :
    (resolve_traps [⟨⟨3, 3⟩, .player ⟨5, 5, none⟩, .idle 0⟩,
        exTrap 3 3 .kill, exGol 6 6] [] []).1[0]? =
      some ⟨⟨3, 3⟩, .player ⟨0, 5, none⟩, .idle 0⟩ ∧
    (resolve_traps [⟨⟨3, 3⟩, .player ⟨5, 5, none⟩, .idle 0⟩,
        exTrap 3 3 .kill, exGol 6 6] [] []).1.length = 2 := by
  have h := c7_amended_kill_one_shot [] [] ⟨3, 3⟩ ⟨5, 5, none⟩ (.idle 0)
    [exTrap 3 3 .kill, exGol 6 6] (exTrap 3 3 .kill) 1
    (by decide) (by decide) (by decide) (by decide) (by decide) (by decide)
  constructor
  · rw [h.1]
    decide
  · rw [h.2.2.2.1]
    decide

/-- C1 amended: after update_monsters (movement, combat and removal), no
monster occupies the player's tile — attempted moves onto it are converted
into attacks — although two monsters may converge on a common free tile (see
the counterexample), so full pairwise no-double-occupancy fails. -/
theorem c1_amended_monsters_off_player (map : List Tile) (p : Entity)
    (rest : List Entity) (hpl : p.typ.is_player = true)
    (hmp : ∀ e ∈ rest, e.typ.is_monster = true → e.pos ≠ p.pos) :
    ∀ e' ∈ update_monsters map (p :: rest), e'.typ.is_monster = true →
      e'.pos ≠ p.pos :=
  update_monsters_off_player map p rest hpl hmp

/-- C1 amended witness: in the counterexample turn itself, the converged Gol
sits at (4, 3), not on the player's tile (4, 4). -/
theorem c1_amended_witness :
    ({ exGol 3 2 with pos := ⟨4, 3⟩ } : Entity).pos ≠ (exPlayer 4 4).pos :=
  c1_amended_monsters_off_player [] (exPlayer 4 4) [exGol 3 2, exGol 5 2]
    (by decide) (by decide) { exGol 3 2 with pos := ⟨4, 3⟩ } (by decide)
    (by decide)

/-- C5: if the store is headed by the (unique) player on an unblocked tile and
N monsters compute the player's tile as destination, then after
update_monsters the player has lost exactly N hit points (one per attacker,
not deduplicated) and no monster — in particular none of the N attackers —
occupies the player's tile. -/
theorem c5_combat_symmetry (map : List Tile) (pp : Pos) (pd : Player)
    (pa : AnimState) (rest : List Entity)
    (hnp : ∀ x ∈ rest, x.typ.is_player = false)
    (hnb : blocked_tile pp map = false)
    (hmp : ∀ e ∈ rest, e.typ.is_monster = true → e.pos ≠ pp) :
    (update_monsters map (⟨pp, .player pd, pa⟩ :: rest))[0]? =
      some ⟨pp, .player { pd with
        hp := pd.hp - attackers_count map ⟨pp, .player pd, pa⟩
                (⟨pp, .player pd, pa⟩ :: rest) }, pa⟩ ∧
    ∀ e' ∈ update_monsters map (⟨pp, .player pd, pa⟩ :: rest),
      e'.typ.is_monster = true → e'.pos ≠ pp := by
  set p : Entity := ⟨pp, .player pd, pa⟩ with hp_def
  have hpl : p.typ.is_player = true := rfl
  constructor
  · unfold update_monsters
    dsimp only
    rw [monsters_phase_cons]
    set phase := monster_moves_from map (p :: rest) p 0 (p :: rest) with hphase
    have hdef0 : ∀ a ∈ phase.2, a.2 = 0 := by
      intro a ha
      exact mmf_attacks_defender map (p :: rest) p 0 (p :: rest) a ha
    have hget0 : phase.1[0]? = some p := by
      rw [hphase]
      rw [mmf_getq map (p :: rest) p 0 (p :: rest) 0 p (by simp)]
      rw [not_monster_of_player hpl]
      simp
    have hlen : phase.2.length =
        attackers_count map p (p :: rest) := by
      rw [hphase]
      rw [mmf_attacks_length map p rest hpl hnp hnb 0 (p :: rest)]
      rfl
    have hhead := apply_attacks_player_head phase.2 phase.1 pp pd pa hdef0 hget0
    rw [hlen] at hhead
    set after := apply_attacks phase.1 phase.2 with hafter
    obtain ⟨x, xs, hcons⟩ : ∃ x xs, after = x :: xs := by
      cases hc : after with
      | nil => rw [hc] at hhead; cases hhead
      | cons x xs => exact ⟨x, xs, rfl⟩
    have hx : x = ⟨pp, .player { pd with
        hp := pd.hp - attackers_count map p (p :: rest) }, pa⟩ := by
      rw [hcons] at hhead
      simpa using hhead
    have hidx : ∀ i ∈ monster_dead_indices 0 after, 1 ≤ i := by
      intro i hi
      rw [hcons] at hi
      unfold monster_dead_indices at hi
      rcases List.mem_append.mp hi with h1 | h2
      · exfalso
        split at h1
        · rename_i hcond
          rw [hx] at hcond
          exact absurd hcond.1 (by simp [EntityType.is_monster])
        · cases h1
      · exact dead_indices_ge 1 xs i h2
    rw [foldl_swap_getq_zero _ after hidx]
    exact hhead
  · exact update_monsters_off_player map p rest hpl hmp

/-- C5 witness: with the player at (4, 4), the Gols at (3, 3) and (5, 3) both
target (4, 4): the player drops from 5 to 3 hp and no monster stands at
(4, 4). -/
theorem c5_witness :
    (update_monsters [] [exPlayer 4 4, exGol 3 3, exGol 5 3, exGol 7 7])[0]? =
      some ⟨⟨4, 4⟩, .player ⟨3, 5, none⟩, .idle 0⟩ := by
  have h := (c5_combat_symmetry [] ⟨4, 4⟩ ⟨5, 5, none⟩ (.idle 0)
    [exGol 3 3, exGol 5 3, exGol 7 7] (by decide) (by decide) (by decide)).1
  show (update_monsters []
    ((⟨⟨4, 4⟩, .player ⟨5, 5, none⟩, .idle 0⟩ : Entity) ::
      [exGol 3 3, exGol 5 3, exGol 7 7]))[0]? = _
  rw [h]
  decide

/-- C10: during the movement and combat phase of a turn, every recorded attack
names the player slot as defender; consequently every monster entry keeps its
exact kind payload (in particular its hit points) through movement and combat
resolution; and a monster whose destination is occupied in the snapshot by
another monster does not move. -/
theorem c10_monster_phase_frame (map : List Tile) (p : Entity)
    (rest : List Entity) (hp : p.typ.is_monster = false) :
    (∀ a ∈ (monsters_phase map (p :: rest)).2, a.2 = player_id) ∧
    (∀ (i : Nat) (e0 : Entity) (m : Monster),
      (p :: rest)[i]? = some e0 → e0.typ = EntityType.monster m →
      ∃ e', (apply_attacks (monsters_phase map (p :: rest)).1
              (monsters_phase map (p :: rest)).2)[i]? = some e' ∧
            e'.typ = EntityType.monster m) ∧
    (∀ (pl e occ : Entity),
      occupied_tile (monster_dest map pl.pos e) (p :: rest) = some occ →
      occ.typ.is_monster = true →
      (monster_step map (p :: rest) pl e).1.pos = e.pos) := by
  refine ⟨?_, ?_, ?_⟩
  · rw [monsters_phase_cons]
    exact fun a ha => mmf_attacks_defender map (p :: rest) p 0 (p :: rest) a ha
  · intro i e0 m hget htyp
    rw [monsters_phase_cons]
    have hne0 : i ≠ 0 := by
      intro h0
      subst h0
      simp only [List.getElem?_cons_zero, Option.some.injEq] at hget
      rw [← hget] at htyp
      rw [htyp] at hp
      simp [EntityType.is_monster] at hp
    have hdef : ∀ a ∈ (monster_moves_from map (p :: rest) p 0 (p :: rest)).2,
        a.2 ≠ i := by
      intro a ha
      rw [mmf_attacks_defender map (p :: rest) p 0 (p :: rest) a ha]
      exact fun h => hne0 h.symm
    rw [apply_attacks_getq_ne _ _ i hdef]
    rw [mmf_getq map (p :: rest) p 0 (p :: rest) i e0 hget]
    have hm : e0.typ.is_monster = true := by rw [htyp]; rfl
    simp only [hm, if_true]
    exact ⟨_, rfl, by rw [monster_step_typ]; exact htyp⟩
  · intro pl e occ ho hm
    unfold monster_step
    dsimp only
    split
    · rfl
    · rw [ho]
      simp [not_player_of_monster hm, hm]

/-- C10 witness: with the player at (9, 9), the Gol at (3, 3) computes
destination (4, 4), which the snapshot shows occupied by the other Gol, so it
does not move. -/
theorem c10_witness :
    (monster_step [] [exPlayer 9 9, exGol 3 3, exGol 4 4] (exPlayer 9 9)
        (exGol 3 3)).1.pos = (exGol 3 3).pos :=
  (c10_monster_phase_frame [] (exPlayer 9 9) [exGol 3 3, exGol 4 4]
      (by decide)).2.2 (exPlayer 9 9) (exGol 3 3) (exGol 4 4) (by decide)
    (by decide)

/-- C9: once the level state is Lost or Win, update returns the game unchanged
for every further input, so no entity position and no hit points ever change
again.  For Win the hypothesis records what holds in every reached Win state:
the store has a Win trap and the player stands on the first one (the player
reaches Win only by stepping on it, and the Win branch re-pins the player
there). -/
theorem c9_terminal_states_absorbing (g : Game) (keys : Keys)
    (rng : List (Int × Int)) (gen : LevelGen)
    (h : g.game_state = .lost ∨
      (g.game_state = .win ∧ ∃ w p0, g.entities.find? is_win_trap = some w ∧
        g.entities[0]? = some p0 ∧ p0.pos = w.pos)) :
    g.update keys rng gen = g := by
  obtain ⟨gs, mp, es⟩ := g
  rcases h with hl | ⟨hw, w, p0, hfind, hget, hpos⟩
  · dsimp only at hl
    subst hl
    rfl
  · dsimp only at hw hfind hget
    subst hw
    show update_win ⟨GameState.win, mp, es⟩ = ⟨GameState.win, mp, es⟩
    unfold update_win
    dsimp only
    rw [hfind]
    have hset : set_entity_pos es 0 w.pos = es := by
      unfold set_entity_pos
      rw [hget]
      show es.set 0 { p0 with pos := w.pos } = es
      have hrec : ({ p0 with pos := w.pos } : Entity) = p0 := by
        rw [← hpos]
      rw [hrec]
      exact set_getq_self es 0 p0 hget
    show ({ game_state := GameState.win, map := mp,
            entities := set_entity_pos es 0 w.pos } : Game) =
      ⟨GameState.win, mp, es⟩
    rw [hset]

/-- C9 witness: a concrete Win state with the player on the Win trap is a fixed
point of update. -/
theorem c9_witness :
    Game.update ⟨.win, [], [exPlayer 8 8, exTrap 8 8 .win]⟩ exKeysLeft [] exGen =
      ⟨.win, [], [exPlayer 8 8, exTrap 8 8 .win]⟩ :=
  c9_terminal_states_absorbing _ _ _ _
    (Or.inr ⟨rfl, exTrap 8 8 .win, exPlayer 8 8, by decide, by decide, rfl⟩)

/-- C3 counterexample: when the buffered advance-level flag and the win flag
are both set at the end of a turn, the source dispatch (if next_level then
NextLevel else if win then Win) yields NextLevel, not Win, so the win signal
does not pre-empt NextLevel. -/
theorem c3_counterexample :
    gameStateAfterFlags true true 0 = GameState.nextLevel 0 ∧
    gameStateAfterFlags true true 0 ≠ GameState.win := by
  decide

/-- C3 amended: the advance-level signal pre-empts the win signal when both
fire in one turn; the state becomes Win that turn only when the win flag fires
without the advance-level flag. -/
theorem c3_amended_flag_priority (n : Nat) :
    gameStateAfterFlags true true n = GameState.nextLevel n ∧
    gameStateAfterFlags false true n = GameState.win :=
  ⟨rfl, rfl⟩

/-- C4: on an open map with the player at (6, 4) and a Rook at (2, 1), the
unconstrained unit step toward the player is diagonal (+1, +1), yet the rook
moves to (3, 2), changing both coordinates.  The source lane constraint
compares the absolute coordinates of the destination (pos_move.x.abs() ==
pos_move.y.abs()), not the step deltas, so it does not fire here, contradicting
the axis-lock rule of the spec and the intent recorded in the source comment
(attempt to constrain rooks to lane movement). -/
theorem c4_rook_moves_diagonally :
    (update_monsters [] [exPlayer 6 4, exRook 2 1])[1]? =
      some { exRook 2 1 with pos := ⟨3, 2⟩ } ∧
    (3 : Int) ≠ (exRook 2 1).pos.x ∧ (2 : Int) ≠ (exRook 2 1).pos.y := by
  decide

/-- C8: a player standing on a Berserk trap is wholly unchanged by trap
resolution; in particular the status field is still none, not Berserk.  The
source writes Berserk into a copy bound by the mut monster / mut player
patterns (Monster and Player are Copy), so the store is never updated. -/
theorem c8_berserk_status_unchanged :
    ((resolve_traps [exPlayer 2 2, exTrap 2 2 .berserk] [] []).1)[0]? =
      some (exPlayer 2 2) ∧
    (exPlayer 2 2).typ = .player ⟨5, 5, none⟩ := by
  decide

/-- C1 counterexample: player at (5, 4) presses Left (a completed turn), and
the Gols at (3, 2) and (5, 2) both compute destination (4, 3).  Each is
checked against the pre-turn snapshot, so both moves are accepted and the two
monsters end the turn on the same tile: two distinct non-trap entities share a
position after a completed turn. -/
theorem c1_counterexample :
    ¬ (non_trap_positions
        (Game.update ⟨.playing 0, [], [exPlayer 5 4, exGol 3 2, exGol 5 2]⟩
          exKeysLeft [] exGen).entities).Nodup := by
  decide

/-- C7 counterexample: a full turn from distinct positions.  The player steps
Left to (4, 4); the Gols at (3, 2) and (5, 2) both converge (via the snapshot)
onto the Kill trap at (4, 3).  Both lose 5 hp, and the trap index 3 is pushed
twice onto the removal list; the duplicated descending swap_remove then
removes the trap and afterwards the live bystander Gol (which started at
(8, 8), moved to (7, 7), and stood on no trap).  After the dead-monster filter
only the player remains: an entity other than the consumed Kill trap was
removed by the removal step. -/
theorem c7_counterexample :
    (Game.update
        ⟨.playing 0, [],
          [exPlayer 5 4, exGol 3 2, exGol 5 2, exTrap 4 3 .kill, exGol 8 8]⟩
        exKeysLeft [] exGen).entities =
      [{ exPlayer 5 4 with pos := ⟨4, 4⟩ }] := by
  decide

end StoneFall
